import Mathlib

/-!
# FeatureDetection: particle sampler and RVM classifier

A shallow embedding of

* `libTracking/src/tracking/ResamplingSampler.cpp` (`sample`, `isValid`, `sampleValid`),
* `libClassification/src/classification/RvmClassifier.cpp`
  (the constructor, `classify`, `computeHyperplaneDistance`, `setSvmParameters`,
  `loadMatlab`).

Conventions of the embedding.

* C++ `int` values are unbounded integers (`Int`); `count`, an `unsigned int`, is a
  natural number below `2 ^ 32`.
* In the sampler a `float` is a rational number of the binary32 format and a `double` one
  of the binary64 format; every arithmetic operation and every conversion rounds its exact
  result to the format of its type, to nearest with ties to even (`toFloat`, `toDouble`),
  as under strict IEEE 754 evaluation.  Infinities and NaN are not represented: a result
  beyond the largest finite number of the format is outside the embedding (its cast to
  `int` is not defined in C++).
* In the classifier the reals are an arbitrary linear ordered field, with exact arithmetic.
* The cast `(int)e` of a real expression truncates towards zero (`truncToInt`); the
  division `int / 2` truncates towards zero (`Int.tdiv`).
* The collaborators whose code is not part of the translated files (the resampling
  algorithm, the transition model, the random engine, the kernel) are fields of the
  object they belong to.  All mutable state they own is threaded explicitly through a
  state of type `σ`.
* `boost::uniform_int<>::operator()(engine, n)` requires `n > 0`.  A call that breaks
  this requirement has no defined result: it is `none` in the embedding.
* `std::vector::operator[]` with an index out of range has no defined result: it is
  `none` in the embedding.
* `loadMatlab` ends in one of three ways (`LoadResult`): it throws, it returns the
  classifier, or it reads through a pointer or index that is not there.
-/

namespace tracking

/-- Modelled from the spec: the class `Sample` (its header is not among the translated
files).  A particle has an integer centre `x`, `y`, an integer edge length `size` and a
real `weight`. -/
structure Sample where
  x : Int
  y : Int
  size : Int
  weight : ℚ
  deriving DecidableEq

/-- The part of `FdImage` the sampler reads: the integer width `w` and height `h`. -/
structure FdImage where
  w : Int
  h : Int
  deriving DecidableEq

/-- The cast `(int)q` of C++: truncation towards zero. -/
def truncToInt (q : ℚ) : Int :=
  if 0 ≤ q then ⌊q⌋ else ⌈q⌉

/-- Rounding of a rational to the nearest integer, ties to the even one. -/
def roundHalfEven (x : ℚ) : Int :=
  if x - (⌊x⌋ : ℚ) < 1 / 2 then ⌊x⌋
  else if 1 / 2 < x - (⌊x⌋ : ℚ) then ⌊x⌋ + 1
  else if ⌊x⌋ % 2 = 0 then ⌊x⌋ else ⌊x⌋ + 1

/-- Rounding to a binary floating-point format with `p` significant bits and least
exponent `emin`, to nearest with ties to even: with `2 ^ e <= |q| < 2 ^ (e + 1)` the
result is the multiple of `2 ^ (max e emin - (p - 1))` nearest to `q` (below `2 ^ emin`
the spacing is that of the subnormal numbers). -/
@[irreducible]
def roundToFormat (p : Nat) (emin : Int) (q : ℚ) : ℚ :=
  if q = 0 then 0
  else
    let e := max (Int.log 2 |q|) emin
    let ulp : ℚ := (2 : ℚ) ^ (e - ((p : Int) - 1))
    (roundHalfEven (q / ulp) : ℚ) * ulp

/-- Rounding to `float` (binary32: 24 significant bits, least exponent -126). -/
def toFloat (q : ℚ) : ℚ := roundToFormat 24 (-126) q

/-- Rounding to `double` (binary64: 53 significant bits, least exponent -1022). -/
def toDouble (q : ℚ) : ℚ := roundToFormat 53 (-1022) q

/-- The object `ResamplingSampler`: its data members, with the collaborators it owns as
functions over the explicit state `σ`.

* `count` is an `unsigned int`: `count_lt` is the range of that type;
* `randomRate` is a `double`, `minSize` and `maxSize` are `float`s: the value of the data
  member is the field rounded to that format (`toDouble`, `toFloat`), which is the field
  itself when the field is a number of the format;
* `resample g samples n newSamples` is `resamplingAlgorithm->resample(samples, n, newSamples)`:
  it yields the new contents of the output vector `newSamples`;
* `predict g sample offset` is `transitionModel->predict(sample, offset)`: it yields the
  new value of `sample`;
* `draw g n` is `distribution(generator, n)` for an argument `n > 0`;
* `newSample` is the value of a default-constructed `Sample`. -/
structure ResamplingSampler (σ : Type) where
  count : Nat
  count_lt : count < 2 ^ 32
  randomRate : ℚ
  resample : σ → List Sample → Int → List Sample → List Sample × σ
  predict : σ → Sample → List ℚ → Sample × σ
  minSize : ℚ
  maxSize : ℚ
  draw : σ → Int → Int × σ
  newSample : Sample

variable {σ : Type}

/-- The call `distribution(generator, n)`: defined for `n > 0` only. -/
def ResamplingSampler.distribution (s : ResamplingSampler σ) (g : σ) (n : Int) :
    Option (Int × σ) :=
  if 0 < n then some (s.draw g n) else none

/-- The local `minSize` of `isValid` and `sampleValid`:
`(int)(this->minSize * std::min(image->w, image->h))`.  The `int` minimum is converted to
`float`, the product is a `float` product, and the cast truncates it. -/
@[irreducible]
def ResamplingSampler.minSz (s : ResamplingSampler σ) (image : FdImage) : Int :=
  truncToInt (toFloat (toFloat s.minSize * toFloat ((min image.w image.h : Int) : ℚ)))

/-- The local `maxSize` of `isValid` and `sampleValid`:
`(int)(this->maxSize * std::min(image->w, image->h))`.  The `int` minimum is converted to
`float`, the product is a `float` product, and the cast truncates it. -/
@[irreducible]
def ResamplingSampler.maxSz (s : ResamplingSampler σ) (image : FdImage) : Int :=
  truncToInt (toFloat (toFloat s.maxSize * toFloat ((min image.w image.h : Int) : ℚ)))

/-- `ResamplingSampler::isValid`. -/
def ResamplingSampler.isValid (s : ResamplingSampler σ) (sample : Sample) (image : FdImage) :
    Bool :=
  let minSize := s.minSz image
  let maxSize := s.maxSz image
  let halfSize := Int.tdiv sample.size 2
  let x := sample.x - halfSize
  let y := sample.y - halfSize
  decide (sample.size ≥ minSize) && decide (sample.size ≤ maxSize)
    && decide (x ≥ 0) && decide (x + sample.size ≤ image.w)
    && decide (y ≥ 0) && decide (y + sample.size ≤ image.h)

/-- `ResamplingSampler::sampleValid`: the new value of `sample` and the new state, or
`none` when one of the three draws is requested with a non-positive range. -/
def ResamplingSampler.sampleValid (s : ResamplingSampler σ) (g : σ) (sample : Sample)
    (image : FdImage) : Option (Sample × σ) :=
  let minSize := s.minSz image
  let maxSize := s.maxSz image
  match s.distribution g (maxSize - minSize) with
  | none => none
  | some (r1, g1) =>
    let size := r1 + minSize
    let halfSize := Int.tdiv size 2
    let sample1 := { sample with size := size }
    match s.distribution g1 (image.w - size) with
    | none => none
    | some (r2, g2) =>
      let sample2 := { sample1 with x := r2 + halfSize }
      match s.distribution g2 (image.h - size) with
      | none => none
      | some (r3, g3) => some ({ sample2 with y := r3 + halfSize }, g3)

/-- The first loop of `ResamplingSampler::sample` ("predict the samples"): every element
of `newSamples` is predicted in place and, when the prediction is not valid, overwritten
by `sampleValid`. -/
def ResamplingSampler.predictSamples (s : ResamplingSampler σ) (offset : List ℚ)
    (image : FdImage) : List Sample → σ → Option (List Sample × σ)
  | [], g => some ([], g)
  | sample :: rest, g =>
    let (predicted, g1) := s.predict g sample offset
    match (if s.isValid predicted image then some (predicted, g1)
           else s.sampleValid g1 predicted image) with
    | none => none
    | some (sample1, g2) =>
      match ResamplingSampler.predictSamples s offset image rest g2 with
      | none => none
      | some (rest1, g3) => some (sample1 :: rest1, g3)

/-- The second loop of `ResamplingSampler::sample` ("add new random samples"):
`while (newSamples.size() < count) { sampleValid(newSample, image); newSamples.push_back(newSample); }`. -/
def ResamplingSampler.addRandomSamples (s : ResamplingSampler σ) (image : FdImage)
    (newSample : Sample) (newSamples : List Sample) (g : σ) : Option (List Sample × σ) :=
  if newSamples.length < s.count then
    match s.sampleValid g newSample image with
    | none => none
    | some (newSample1, g1) =>
      ResamplingSampler.addRandomSamples s image newSample1 (newSamples ++ [newSample1]) g1
  else some (newSamples, g)
termination_by s.count - newSamples.length
decreasing_by
  simp only [List.length_append, List.length_singleton]
  omega

/-- The number of samples `sample` requests from the resampling algorithm:
`(int)((1 - randomRate) * count)`.  The difference and the product are `double`
operations (the conversion of `count` to `double` is exact), and the cast truncates the
product. -/
@[irreducible]
def ResamplingSampler.keep (s : ResamplingSampler σ) : Int :=
  truncToInt (toDouble (toDouble (1 - toDouble s.randomRate) * (s.count : ℚ)))

/-- `ResamplingSampler::sample`: the final contents of the output vector `newSamples` and
the final state, or `none` when a draw was requested with a non-positive range. -/
def ResamplingSampler.sample (s : ResamplingSampler σ) (g : σ) (samples : List Sample)
    (offset : List ℚ) (image : FdImage) (newSamples : List Sample) :
    Option (List Sample × σ) :=
  let (newSamples1, g1) := s.resample g samples s.keep newSamples
  match s.predictSamples offset image newSamples1 g1 with
  | none => none
  | some (newSamples2, g2) => s.addRandomSamples image s.newSample newSamples2 g2

end tracking

namespace classification

/-- The object `RvmClassifier` together with the members it inherits from
`VectorMachineClassifier`.  `α` is the type of real numbers, `Mat` the type of feature
vectors (`cv::Mat`); `kernel a b` is `kernel->compute(a, b)`. -/
structure RvmClassifier (α Mat : Type) where
  kernel : Mat → Mat → α
  supportVectors : List Mat
  coefficients : List α
  bias : α
  threshold : α

variable {α Mat : Type} [LinearOrderedField α]

/-- The loop of `RvmClassifier::computeHyperplaneDistance`, entered at index `i` with the
support vectors `supportVectors[i], supportVectors[i+1], ...` still to visit:
`distance += coefficients[i] * kernel->compute(featureVector, supportVectors[i])`.
The result is `none` when `coefficients[i]` is read out of range. -/
def RvmClassifier.distanceLoop (c : RvmClassifier α Mat) (featureVector : Mat) :
    List Mat → Nat → α → Option α
  | [], _, distance => some distance
  | supportVector :: rest, i, distance =>
    match c.coefficients[i]? with
    | none => none
    | some coefficient =>
      RvmClassifier.distanceLoop c featureVector rest (i + 1)
        (distance + coefficient * c.kernel featureVector supportVector)

/-- `RvmClassifier::computeHyperplaneDistance`. -/
def RvmClassifier.computeHyperplaneDistance (c : RvmClassifier α Mat) (featureVector : Mat) :
    Option α :=
  c.distanceLoop featureVector c.supportVectors 0 (-c.bias)

/-- `RvmClassifier::classify(double hyperplaneDistance)`. -/
def RvmClassifier.classifyDistance (c : RvmClassifier α Mat) (hyperplaneDistance : α) : Bool :=
  decide (hyperplaneDistance ≥ c.threshold)

/-- `RvmClassifier::classify(const Mat& featureVector)`. -/
def RvmClassifier.classify (c : RvmClassifier α Mat) (featureVector : Mat) : Option Bool :=
  match c.computeHyperplaneDistance featureVector with
  | none => none
  | some distance => some (c.classifyDistance distance)

/-- `RvmClassifier::setSvmParameters`. -/
def RvmClassifier.setSvmParameters (c : RvmClassifier α Mat) (supportVectors : List Mat)
    (coefficients : List α) (bias : α) : RvmClassifier α Mat :=
  { c with supportVectors := supportVectors, coefficients := coefficients, bias := bias }

/-- A concrete classifier over the rationals: two support vectors, the kernel a plain dot
product of the two feature vectors. -/
def demoClassifier : RvmClassifier ℚ (List ℚ) where
  kernel := fun a b => (List.zipWith (fun x y => x * y) a b).sum
  supportVectors := [[1, 0], [0, 1]]
  coefficients := [2, -1]
  bias := 1 / 2
  threshold := 0

/-- The classifier of the concrete scenario: the single support vector `[1, 0]` with
coefficient 2, bias 0.5 and threshold 0, over a given kernel. -/
def scenarioClassifier (kernel : List α → List α → α) : RvmClassifier α (List α) where
  kernel := kernel
  supportVectors := [[1, 0]]
  coefficients := [2]
  bias := 1 / 2
  threshold := 0

/-- The constructor `RvmClassifier::RvmClassifier(kernel)`: both vectors start empty.
`bias` and `threshold` are the values the constructor of the base class
`VectorMachineClassifier` gives them (its code is not part of the translated file). -/
def RvmClassifier.init (kernel : Mat → Mat → α) (bias threshold : α) : RvmClassifier α Mat where
  kernel := kernel
  supportVectors := []
  coefficients := []
  bias := bias
  threshold := threshold

end classification

/-! ## The sampler: auxiliary facts -/

namespace tracking

variable {σ : Type}

/-- The random engine keeps the contract of `uniform_int`: a draw with range `n > 0`
lies in `[0, n)`. -/
def DrawInRange (s : ResamplingSampler σ) : Prop :=
  ∀ (g : σ) (n : Int), 0 < n → 0 ≤ (s.draw g n).1 ∧ (s.draw g n).1 < n

/-- The frame admits fresh samples: `0 <= minSz < maxSz <= min(w, h)` for the truncated
bounds. -/
def FrameAdmits (s : ResamplingSampler σ) (image : FdImage) : Prop :=
  0 ≤ s.minSz image ∧ s.minSz image < s.maxSz image ∧ s.maxSz image ≤ min image.w image.h

/-- The resampling algorithm returns exactly the requested number of samples. -/
def ResampleExact (s : ResamplingSampler σ) : Prop :=
  ∀ (g : σ) (samples : List Sample) (n : Int) (newSamples : List Sample),
    0 ≤ n → ((s.resample g samples n newSamples).1.length : Int) = n

/-- The shape of a freshly generated sample. -/
def FreshOn (s : ResamplingSampler σ) (image : FdImage) (p : Sample) : Prop :=
  s.minSz image ≤ p.size ∧ p.size < s.maxSz image ∧
    Int.tdiv p.size 2 ≤ p.x ∧ p.x - Int.tdiv p.size 2 < image.w - p.size ∧
    Int.tdiv p.size 2 ≤ p.y ∧ p.y - Int.tdiv p.size 2 < image.h - p.size

/-- The square region of a sample, `size` wide and high with its corner at
`(x - size / 2, y - size / 2)`, lies within the frame. -/
def RegionInside (p : Sample) (image : FdImage) : Prop :=
  0 ≤ p.x - Int.tdiv p.size 2 ∧ p.x - Int.tdiv p.size 2 + p.size ≤ image.w ∧
    0 ≤ p.y - Int.tdiv p.size 2 ∧ p.y - Int.tdiv p.size 2 + p.size ≤ image.h

instance (p : Sample) (image : FdImage) : Decidable (RegionInside p image) := by
  unfold RegionInside
  infer_instance

/-- The validity condition in the words of the specification: the size lies between the
real-valued bounds `minSize * min(width, height)` and `maxSize * min(width, height)`, and
the region of the sample lies within the frame. -/
def IsValidSpec (s : ResamplingSampler σ) (p : Sample) (image : FdImage) : Prop :=
  s.minSize * ((min image.w image.h : Int) : ℚ) ≤ (p.size : ℚ) ∧
    (p.size : ℚ) ≤ s.maxSize * ((min image.w image.h : Int) : ℚ) ∧ RegionInside p image

instance (s : ResamplingSampler σ) (p : Sample) (image : FdImage) :
    Decidable (IsValidSpec s p image) := by
  unfold IsValidSpec
  infer_instance

/-- A concrete sampler: five particles, half of them fresh in every step; the resampler
repeats one fixed particle, the transition model shifts a particle to the right, and the
random engine is a counter reduced modulo the requested range. -/
def demoSampler : ResamplingSampler Nat where
  count := 5
  count_lt := by decide
  randomRate := 1 / 2
  resample := fun g _ n _ => (List.replicate n.toNat ⟨50, 50, 20, 1⟩, g)
  predict := fun g p _ => ({ p with x := p.x + 45 }, g)
  minSize := 1 / 10
  maxSize := 1 / 2
  draw := fun g n => ((g : Int) % n, g + 1)
  newSample := ⟨0, 0, 0, 0⟩

/-- A frame of 100 by 100 pixels. -/
def demoImage : FdImage := ⟨100, 100⟩

/-- The sampler of the concrete scenario: `count = 5`, `randomRate = 1.0`,
`minSize = 0.1`, `maxSize = 0.5`, over given collaborators. -/
def scenarioSampler (resample : σ → List Sample → Int → List Sample → List Sample × σ)
    (predict : σ → Sample → List ℚ → Sample × σ) (draw : σ → Int → Int × σ)
    (newSample : Sample) : ResamplingSampler σ where
  count := 5
  count_lt := by decide
  randomRate := 1
  resample := resample
  predict := predict
  minSize := 1 / 10
  maxSize := 1 / 2
  draw := draw
  newSample := newSample

/-- The entry `out` stands where the resampled sample `res` stood after the first loop of
`sample`: `res` was predicted to `p`, and `out` is `p` itself when `p` is valid and `p`
overwritten by `sampleValid` otherwise. -/
def Repaired (s : ResamplingSampler σ) (offset : List ℚ) (image : FdImage)
    (res out : Sample) : Prop :=
  ∃ (ga gb : σ) (p : Sample), s.predict ga res offset = (p, gb) ∧
    ((s.isValid p image = true ∧ out = p) ∨
      (s.isValid p image = false ∧ ∃ gc, s.sampleValid gb p image = some (out, gc)))

/-- The sample `q` is the result of `sampleValid` on a default-constructed sample. -/
def Padded (s : ResamplingSampler σ) (image : FdImage) (q : Sample) : Prop :=
  ∃ ga gb : σ, s.sampleValid ga s.newSample image = some (q, gb)

/-- The range arguments that `sampleValid` passes to `distribution(generator, n)`, in the
order of the calls, up to the first one that is not positive (the call after which
nothing is defined any more). -/
def ResamplingSampler.sampleValidRanges (s : ResamplingSampler σ) (g : σ) (image : FdImage) :
    List Int :=
  let minSize := s.minSz image
  let maxSize := s.maxSz image
  match s.distribution g (maxSize - minSize) with
  | none => [maxSize - minSize]
  | some (r1, g1) =>
    let size := r1 + minSize
    match s.distribution g1 (image.w - size) with
    | none => [maxSize - minSize, image.w - size]
    | some (_, _) => [maxSize - minSize, image.w - size, image.h - size]

/-- A sampler whose size bounds are the wrong way round: `minSize = 0.5`,
`maxSize = 0.1`; everything else as in `demoSampler`. -/
def swappedSampler : ResamplingSampler Nat :=
  { demoSampler with minSize := 1 / 2, maxSize := 1 / 10 }

/-- A sampler with ten particles whose `randomRate` is the `double` nearest to 0.1, that
is 3602879701896397 / 2 ^ 55; everything else as in `demoSampler`. -/
def tenthRateSampler : ResamplingSampler Nat :=
  { demoSampler with
    count := 10
    count_lt := by decide
    randomRate := 3602879701896397 / 36028797018963968 }

/-! ### Rounding and truncation -/

theorem floor_le_roundHalfEven (x : ℚ) : ⌊x⌋ ≤ roundHalfEven x := by
  unfold roundHalfEven
  split
  · exact le_refl _
  · split
    · omega
    · split <;> omega

theorem roundHalfEven_le_floor_add_one (x : ℚ) : roundHalfEven x ≤ ⌊x⌋ + 1 := by
  unfold roundHalfEven
  split
  · omega
  · split
    · omega
    · split <;> omega

theorem roundHalfEven_intCast (n : Int) : roundHalfEven (n : ℚ) = n := by
  unfold roundHalfEven
  simp

theorem roundHalfEven_le_of_le (x : ℚ) (n : Int) (h : x ≤ (n : ℚ)) : roundHalfEven x ≤ n := by
  rcases lt_or_eq_of_le h with hlt | heq
  · have h1 : ⌊x⌋ < n := Int.floor_lt.mpr hlt
    have h2 := roundHalfEven_le_floor_add_one x
    omega
  · rw [heq, roundHalfEven_intCast]

theorem le_roundHalfEven_of_le (x : ℚ) (n : Int) (h : (n : ℚ) ≤ x) : n ≤ roundHalfEven x :=
  le_trans (Int.le_floor.mpr h) (floor_le_roundHalfEven x)

theorem roundHalfEven_eq_of_abs_lt (x : ℚ) (m : Int) (h : |x - (m : ℚ)| < 1 / 2) :
    roundHalfEven x = m := by
  obtain ⟨h1, h2⟩ := abs_lt.mp h
  unfold roundHalfEven
  by_cases hm : (m : ℚ) ≤ x
  · have hf : ⌊x⌋ = m := Int.floor_eq_iff.mpr ⟨hm, by linarith⟩
    rw [hf, if_pos (by linarith)]
  · have hm1 : x < (m : ℚ) := lt_of_not_le hm
    have hf : ⌊x⌋ = m - 1 := Int.floor_eq_iff.mpr ⟨by push_cast; linarith, by push_cast; linarith⟩
    rw [hf]
    have hc : ¬ (x - ((m - 1 : Int) : ℚ) < 1 / 2) := by push_cast; linarith
    have hd : (1 : ℚ) / 2 < x - ((m - 1 : Int) : ℚ) := by push_cast; linarith
    rw [if_neg hc, if_pos hd]
    omega

theorem roundToFormat_eq_of (p : Nat) (emin : Int) (q : ℚ) (e m : Int)
    (h1 : (2 : ℚ) ^ e ≤ |q|) (h2 : |q| < (2 : ℚ) ^ (e + 1)) (hemin : emin ≤ e)
    (hm : |q / (2 : ℚ) ^ (e - ((p : Int) - 1)) - (m : ℚ)| < 1 / 2) :
    roundToFormat p emin q = (m : ℚ) * (2 : ℚ) ^ (e - ((p : Int) - 1)) := by
  have hpos : 0 < |q| := lt_of_lt_of_le (zpow_pos (by norm_num) e) h1
  have hq : q ≠ 0 := abs_pos.mp hpos
  have hlog : Int.log 2 |q| = e := by
    have a : Int.log 2 |q| < e + 1 :=
      (Int.lt_zpow_iff_log_lt (by norm_num) hpos).mp (by exact_mod_cast h2)
    have b : e ≤ Int.log 2 |q| :=
      (Int.zpow_le_iff_le_log (by norm_num) hpos).mp (by exact_mod_cast h1)
    omega
  unfold roundToFormat
  rw [if_neg hq]
  simp only [hlog, max_eq_left hemin]
  rw [roundHalfEven_eq_of_abs_lt _ m hm]

theorem roundToFormat_nonneg (p : Nat) (emin : Int) (q : ℚ) (h : 0 ≤ q) :
    0 ≤ roundToFormat p emin q := by
  unfold roundToFormat
  split
  · exact le_refl _
  · have hu : (0 : ℚ) < (2 : ℚ) ^ (max (Int.log 2 |q|) emin - ((p : Int) - 1)) :=
      zpow_pos (by norm_num) _
    have hr : (0 : Int) ≤ roundHalfEven
        (q / (2 : ℚ) ^ (max (Int.log 2 |q|) emin - ((p : Int) - 1))) :=
      le_roundHalfEven_of_le _ 0 (by simpa using div_nonneg h (le_of_lt hu))
    exact mul_nonneg (by exact_mod_cast hr) (le_of_lt hu)

theorem roundToFormat_nonpos (p : Nat) (emin : Int) (q : ℚ) (h : q ≤ 0) :
    roundToFormat p emin q ≤ 0 := by
  unfold roundToFormat
  split
  · exact le_refl _
  · have hu : (0 : ℚ) < (2 : ℚ) ^ (max (Int.log 2 |q|) emin - ((p : Int) - 1)) :=
      zpow_pos (by norm_num) _
    have hr : roundHalfEven
        (q / (2 : ℚ) ^ (max (Int.log 2 |q|) emin - ((p : Int) - 1))) ≤ (0 : Int) :=
      roundHalfEven_le_of_le _ 0 (by simpa using div_nonpos_of_nonpos_of_nonneg h (le_of_lt hu))
    exact mul_nonpos_of_nonpos_of_nonneg (by exact_mod_cast hr) (le_of_lt hu)

theorem roundToFormat_le_natCast (p : Nat) (emin : Int) (hemin : emin ≤ (p : Int) - 1)
    (q : ℚ) (n : Nat) (hn : (n : ℚ) < (2 : ℚ) ^ (p : Int)) (h : q ≤ (n : ℚ)) :
    roundToFormat p emin q ≤ (n : ℚ) := by
  rcases le_or_lt q 0 with hq | hq
  · exact le_trans (roundToFormat_nonpos p emin q hq) (Nat.cast_nonneg n)
  · have habs : |q| = q := abs_of_pos hq
    have hlog : Int.log 2 q < (p : Int) :=
      (Int.lt_zpow_iff_log_lt (by norm_num) hq).mp (by exact_mod_cast lt_of_le_of_lt h hn)
    have hk : max (Int.log 2 q) emin - ((p : Int) - 1) ≤ 0 := by
      have := max_le (Int.le_sub_one_of_lt hlog) hemin
      omega
    obtain ⟨j, hj⟩ := Int.exists_eq_neg_ofNat hk
    unfold roundToFormat
    rw [if_neg (ne_of_gt hq), habs]
    simp only [hj]
    have hu : (0 : ℚ) < (2 : ℚ) ^ (-(j : Int)) := zpow_pos (by norm_num) _
    have hdiv : q / (2 : ℚ) ^ (-(j : Int)) ≤ (((n * 2 ^ j : Nat) : Int) : ℚ) := by
      rw [div_le_iff₀ hu]
      push_cast
      rw [mul_assoc, zpow_neg, zpow_natCast, mul_inv_cancel₀ (by positivity), mul_one]
      exact h
    have hr := roundHalfEven_le_of_le _ _ hdiv
    have hr1 : (roundHalfEven (q / (2 : ℚ) ^ (-(j : Int))) : ℚ) ≤ (((n * 2 ^ j : Nat) : Int) : ℚ) := by
      exact_mod_cast hr
    calc (roundHalfEven (q / (2 : ℚ) ^ (-(j : Int))) : ℚ) * (2 : ℚ) ^ (-(j : Int))
        ≤ (((n * 2 ^ j : Nat) : Int) : ℚ) * (2 : ℚ) ^ (-(j : Int)) :=
          mul_le_mul_of_nonneg_right hr1 (le_of_lt hu)
      _ = (n : ℚ) := by
          push_cast
          rw [mul_assoc, zpow_neg, zpow_natCast, mul_inv_cancel₀ (by positivity), mul_one]

/-- A certificate for a `float` rounding: the binade `e` of `q` and the integer `m`
nearest to `q / 2 ^ (e - 23)`. -/
theorem toFloat_eq_of (q r : ℚ) (e m : Int) (hemin : -126 ≤ e)
    (h1 : (2 : ℚ) ^ e ≤ |q|) (h2 : |q| < (2 : ℚ) ^ (e + 1))
    (hm : |q / (2 : ℚ) ^ (e - 23) - (m : ℚ)| < 1 / 2)
    (hr : (m : ℚ) * (2 : ℚ) ^ (e - 23) = r) : toFloat q = r := by
  have h23 : e - (((24 : Nat) : Int) - 1) = e - 23 := by norm_num
  have h := roundToFormat_eq_of 24 (-126) q e m h1 h2 hemin (by rw [h23]; exact hm)
  rw [h23] at h
  rw [toFloat, h, hr]

/-- A certificate for a `double` rounding: the binade `e` of `q` and the integer `m`
nearest to `q / 2 ^ (e - 52)`. -/
theorem toDouble_eq_of (q r : ℚ) (e m : Int) (hemin : -1022 ≤ e)
    (h1 : (2 : ℚ) ^ e ≤ |q|) (h2 : |q| < (2 : ℚ) ^ (e + 1))
    (hm : |q / (2 : ℚ) ^ (e - 52) - (m : ℚ)| < 1 / 2)
    (hr : (m : ℚ) * (2 : ℚ) ^ (e - 52) = r) : toDouble q = r := by
  have h52 : e - (((53 : Nat) : Int) - 1) = e - 52 := by norm_num
  have h := roundToFormat_eq_of 53 (-1022) q e m h1 h2 hemin (by rw [h52]; exact hm)
  rw [h52] at h
  rw [toDouble, h, hr]

theorem toDouble_zero : toDouble 0 = 0 := by
  simp [toDouble, roundToFormat]

theorem le_truncToInt_of_le (q : ℚ) (n : Int) (h : (n : ℚ) ≤ q) : n ≤ truncToInt q := by
  unfold truncToInt
  split
  · exact Int.le_floor.mpr h
  · exact Int.cast_le.mp (le_trans h (Int.le_ceil q))

theorem truncToInt_le_of_le (q : ℚ) (n : Int) (h : q ≤ (n : ℚ)) : truncToInt q ≤ n := by
  unfold truncToInt
  split
  · exact Int.cast_le.mp (le_trans (Int.floor_le q) h)
  · exact Int.ceil_le.mpr h

theorem truncToInt_intCast (n : Int) : truncToInt (n : ℚ) = n := by
  unfold truncToInt
  split <;> simp

theorem truncToInt_of_nonneg (q : ℚ) (h : 0 ≤ q) : truncToInt q = ⌊q⌋ := by
  unfold truncToInt
  rw [if_pos h]

/-- The number of samples requested from the resampling algorithm lies in `[0, count]`
when `randomRate` lies in `[0, 1]`: no rounding of the `double` operations crosses 0, 1
or `count`. -/
theorem keep_bounds (s : ResamplingSampler σ) (h0 : 0 ≤ s.randomRate)
    (h1 : s.randomRate ≤ 1) : 0 ≤ s.keep ∧ s.keep ≤ (s.count : Int) := by
  have hr0 : 0 ≤ toDouble s.randomRate := roundToFormat_nonneg 53 (-1022) _ h0
  have hr1 : toDouble s.randomRate ≤ ((1 : Nat) : ℚ) :=
    roundToFormat_le_natCast 53 (-1022) (by norm_num) _ 1 (by norm_num) (by simpa using h1)
  have hx0 : 0 ≤ toDouble (1 - toDouble s.randomRate) :=
    roundToFormat_nonneg 53 (-1022) _ (by simpa using hr1)
  have hx1 : toDouble (1 - toDouble s.randomRate) ≤ ((1 : Nat) : ℚ) :=
    roundToFormat_le_natCast 53 (-1022) (by norm_num) _ 1 (by norm_num)
      (by simp only [Nat.cast_one]; linarith)
  have hc : (0 : ℚ) ≤ (s.count : ℚ) := Nat.cast_nonneg s.count
  have hlt : (s.count : ℚ) < (2 : ℚ) ^ ((53 : Nat) : Int) := by
    have h32 : (s.count : ℚ) < (2 : ℚ) ^ (32 : Nat) := by exact_mod_cast s.count_lt
    have h53 : (2 : ℚ) ^ (32 : Nat) ≤ (2 : ℚ) ^ ((53 : Nat) : Int) := by norm_num
    exact lt_of_lt_of_le h32 h53
  have hy0 : 0 ≤ toDouble (toDouble (1 - toDouble s.randomRate) * (s.count : ℚ)) :=
    roundToFormat_nonneg 53 (-1022) _ (mul_nonneg hx0 hc)
  have hy1 : toDouble (toDouble (1 - toDouble s.randomRate) * (s.count : ℚ)) ≤ (s.count : ℚ) :=
    roundToFormat_le_natCast 53 (-1022) (by norm_num) _ s.count hlt (by
      simp only [Nat.cast_one] at hx1
      nlinarith)
  rw [ResamplingSampler.keep]
  constructor
  · exact le_truncToInt_of_le _ 0 (by simpa using hy0)
  · exact truncToInt_le_of_le _ _ (by simpa using hy1)

/-! ### Unfolding the loops -/

set_option maxHeartbeats 1000000 in
/-- One round of the second loop of `sample`. -/
theorem addRandomSamples_unfold (s : ResamplingSampler σ) (image : FdImage)
    (newSample : Sample) (newSamples : List Sample) (g : σ) :
    s.addRandomSamples image newSample newSamples g =
      if newSamples.length < s.count then
        match s.sampleValid g newSample image with
        | none => none
        | some (newSample1, g1) =>
          s.addRandomSamples image newSample1 (newSamples ++ [newSample1]) g1
      else some (newSamples, g) := by
  rw [ResamplingSampler.addRandomSamples]

/-- The result of `sampleValid` in terms of its three draws. -/
theorem sampleValid_of_draws (s : ResamplingSampler σ) (g g1 g2 g3 : σ) (r1 r2 r3 : Int)
    (sample : Sample) (image : FdImage)
    (p1 : 0 < s.maxSz image - s.minSz image)
    (d1 : s.draw g (s.maxSz image - s.minSz image) = (r1, g1))
    (p2 : 0 < image.w - (r1 + s.minSz image))
    (d2 : s.draw g1 (image.w - (r1 + s.minSz image)) = (r2, g2))
    (p3 : 0 < image.h - (r1 + s.minSz image))
    (d3 : s.draw g2 (image.h - (r1 + s.minSz image)) = (r3, g3)) :
    s.sampleValid g sample image =
      some ({ x := r2 + Int.tdiv (r1 + s.minSz image) 2,
              y := r3 + Int.tdiv (r1 + s.minSz image) 2,
              size := r1 + s.minSz image,
              weight := sample.weight }, g3) := by
  have e1 : s.distribution g (s.maxSz image - s.minSz image) = some (r1, g1) := by
    rw [ResamplingSampler.distribution, if_pos p1, d1]
  have e2 : s.distribution g1 (image.w - (r1 + s.minSz image)) = some (r2, g2) := by
    rw [ResamplingSampler.distribution, if_pos p2, d2]
  have e3 : s.distribution g2 (image.h - (r1 + s.minSz image)) = some (r3, g3) := by
    rw [ResamplingSampler.distribution, if_pos p3, d3]
  unfold ResamplingSampler.sampleValid
  dsimp only
  rw [e1]
  dsimp only
  rw [e2]
  dsimp only
  rw [e3]

theorem sampleValid_fresh (s : ResamplingSampler σ) (g : σ) (sample : Sample) (image : FdImage)
    (hdraw : DrawInRange s) (hframe : FrameAdmits s image) :
    ∃ r, s.sampleValid g sample image = some r ∧ FreshOn s image r.1 ∧
      r.1.weight = sample.weight := by
  obtain ⟨h0, h1, h2⟩ := hframe
  have hw : s.maxSz image ≤ image.w := le_trans h2 (min_le_left _ _)
  have hh : s.maxSz image ≤ image.h := le_trans h2 (min_le_right _ _)
  have p1 : 0 < s.maxSz image - s.minSz image := by omega
  have a := hdraw g _ p1
  rcases d1 : s.draw g (s.maxSz image - s.minSz image) with ⟨r1, g1⟩
  rw [d1] at a
  obtain ⟨a1, a2⟩ := a
  have p2 : 0 < image.w - (r1 + s.minSz image) := by dsimp only at a1 a2; omega
  have b := hdraw g1 _ p2
  rcases d2 : s.draw g1 (image.w - (r1 + s.minSz image)) with ⟨r2, g2⟩
  rw [d2] at b
  obtain ⟨b1, b2⟩ := b
  have p3 : 0 < image.h - (r1 + s.minSz image) := by dsimp only at a1 a2; omega
  have c := hdraw g2 _ p3
  rcases d3 : s.draw g2 (image.h - (r1 + s.minSz image)) with ⟨r3, g3⟩
  rw [d3] at c
  obtain ⟨c1, c2⟩ := c
  refine ⟨_, sampleValid_of_draws s g g1 g2 g3 r1 r2 r3 sample image p1 d1 p2 d2 p3 d3, ?_, rfl⟩
  dsimp only [FreshOn] at a1 a2 b1 b2 c1 c2 ⊢
  refine ⟨?_, ?_, ?_, ?_, ?_, ?_⟩ <;> omega

theorem fresh_isValid (s : ResamplingSampler σ) (image : FdImage) (p : Sample)
    (h : FreshOn s image p) : s.isValid p image = true := by
  obtain ⟨h1, h2, h3, h4, h5, h6⟩ := h
  simp only [ResamplingSampler.isValid, Bool.and_eq_true, decide_eq_true_eq]
  refine ⟨⟨⟨⟨⟨?_, ?_⟩, ?_⟩, ?_⟩, ?_⟩, ?_⟩ <;> omega

/-- The first loop keeps the length of the vector and leaves only valid samples. -/
theorem predictSamples_spec (s : ResamplingSampler σ) (offset : List ℚ) (image : FdImage)
    (hdraw : DrawInRange s) (hframe : FrameAdmits s image) (newSamples : List Sample) :
    ∀ g : σ, ∃ r, s.predictSamples offset image newSamples g = some r ∧
      r.1.length = newSamples.length ∧ ∀ p ∈ r.1, s.isValid p image = true := by
  induction newSamples with
  | nil =>
    intro g
    exact ⟨([], g), rfl, rfl, by simp⟩
  | cons sample rest ih =>
    intro g
    rcases hp : s.predict g sample offset with ⟨predicted, g1⟩
    have hstep : ∃ q, (if s.isValid predicted image then some (predicted, g1)
        else s.sampleValid g1 predicted image) = some q ∧ s.isValid q.1 image = true := by
      by_cases hv : s.isValid predicted image = true
      · exact ⟨(predicted, g1), by rw [if_pos hv], hv⟩
      · obtain ⟨q, hq, hfresh, _⟩ := sampleValid_fresh s g1 predicted image hdraw hframe
        exact ⟨q, by rw [if_neg hv, hq], fresh_isValid s image q.1 hfresh⟩
    obtain ⟨⟨sample1, g2⟩, hq, hqv⟩ := hstep
    obtain ⟨⟨rest1, g3⟩, hr, hlen, hval⟩ := ih g2
    refine ⟨(sample1 :: rest1, g3), ?_, ?_, ?_⟩
    · simp only [ResamplingSampler.predictSamples, hp, hq, hr]
    · simp only [List.length_cons, add_left_inj]
      exact hlen
    · intro p hmem
      rcases List.mem_cons.mp hmem with h | h
      · rw [h]
        exact hqv
      · exact hval p h

/-- The second loop fills the vector up to `count` entries with valid samples. -/
theorem addRandomSamples_spec (s : ResamplingSampler σ) (image : FdImage)
    (hdraw : DrawInRange s) (hframe : FrameAdmits s image) :
    ∀ (n : Nat) (newSample : Sample) (newSamples : List Sample) (g : σ),
      s.count - newSamples.length = n →
      ∃ r, s.addRandomSamples image newSample newSamples g = some r ∧
        r.1.length = max newSamples.length s.count ∧
        ((∀ p ∈ newSamples, s.isValid p image = true) → ∀ p ∈ r.1, s.isValid p image = true) := by
  intro n
  induction n with
  | zero =>
    intro newSample newSamples g hn
    have hge : ¬ newSamples.length < s.count := by omega
    refine ⟨(newSamples, g), ?_, ?_, fun h => h⟩
    · rw [addRandomSamples_unfold, if_neg hge]
    · show newSamples.length = max newSamples.length s.count
      exact (max_eq_left (by omega)).symm
  | succ n ih =>
    intro newSample newSamples g hn
    have hlt : newSamples.length < s.count := by omega
    obtain ⟨⟨newSample1, g1⟩, hq, hfresh, _⟩ :=
      sampleValid_fresh s g newSample image hdraw hframe
    have hn1 : s.count - (newSamples ++ [newSample1]).length = n := by
      simp only [List.length_append, List.length_singleton]
      omega
    obtain ⟨r, hr, hlen, hval⟩ := ih newSample1 (newSamples ++ [newSample1]) g1 hn1
    refine ⟨r, ?_, ?_, ?_⟩
    · rw [addRandomSamples_unfold, if_pos hlt, hq]
      exact hr
    · rw [hlen]
      simp only [List.length_append, List.length_singleton]
      omega
    · intro hall
      apply hval
      intro p hmem
      rcases List.mem_append.mp hmem with h | h
      · exact hall p h
      · rw [List.mem_singleton.mp h]
        exact fresh_isValid s image newSample1 hfresh

/-! ### The bounds at concrete inputs -/

/-- The computation of `minSz` in four steps: the two conversions to `float`, the `float`
product and the cast. -/
theorem minSz_eq (s : ResamplingSampler σ) (image : FdImage) (a b c : ℚ) (n : Int)
    (ha : toFloat s.minSize = a) (hb : toFloat ((min image.w image.h : Int) : ℚ) = b)
    (hc : toFloat (a * b) = c) (hn : truncToInt c = n) : s.minSz image = n := by
  rw [ResamplingSampler.minSz, ha, hb, hc, hn]

/-- The computation of `maxSz` in four steps: the two conversions to `float`, the `float`
product and the cast. -/
theorem maxSz_eq (s : ResamplingSampler σ) (image : FdImage) (a b c : ℚ) (n : Int)
    (ha : toFloat s.maxSize = a) (hb : toFloat ((min image.w image.h : Int) : ℚ) = b)
    (hc : toFloat (a * b) = c) (hn : truncToInt c = n) : s.maxSz image = n := by
  rw [ResamplingSampler.maxSz, ha, hb, hc, hn]

/-- The computation of `keep` in four steps: the conversion of `randomRate`, the `double`
difference, the `double` product and the cast. -/
theorem keep_eq (s : ResamplingSampler σ) (a b c : ℚ) (n : Int)
    (ha : toDouble s.randomRate = a) (hb : toDouble (1 - a) = b)
    (hc : toDouble (b * (s.count : ℚ)) = c) (hn : truncToInt c = n) : s.keep = n := by
  rw [ResamplingSampler.keep, ha, hb, hc, hn]

theorem toFloat_tenth : toFloat (1 / 10) = 13421773 / 134217728 :=
  toFloat_eq_of (1 / 10) (13421773 / 134217728) (-4) 13421773 (by norm_num)
    (by norm_num [abs_of_pos]) (by norm_num [abs_of_pos]) (by norm_num [abs_of_pos])
    (by norm_num)

theorem toFloat_half : toFloat (1 / 2) = 1 / 2 :=
  toFloat_eq_of (1 / 2) (1 / 2) (-1) 8388608 (by norm_num)
    (by norm_num [abs_of_pos]) (by norm_num [abs_of_pos]) (by norm_num [abs_of_pos])
    (by norm_num)

theorem toFloat_hundred : toFloat (100) = 100 :=
  toFloat_eq_of (100) (100) (6) 13107200 (by norm_num)
    (by norm_num [abs_of_pos]) (by norm_num [abs_of_pos]) (by norm_num [abs_of_pos])
    (by norm_num)

theorem toFloat_fifteen : toFloat (15) = 15 :=
  toFloat_eq_of (15) (15) (3) 15728640 (by norm_num)
    (by norm_num [abs_of_pos]) (by norm_num [abs_of_pos]) (by norm_num [abs_of_pos])
    (by norm_num)

theorem toFloat_five : toFloat (5) = 5 :=
  toFloat_eq_of (5) (5) (2) 10485760 (by norm_num)
    (by norm_num [abs_of_pos]) (by norm_num [abs_of_pos]) (by norm_num [abs_of_pos])
    (by norm_num)

theorem toFloat_tenth_mul_hundred : toFloat (13421773 / 134217728 * 100) = 10 :=
  toFloat_eq_of (13421773 / 134217728 * 100) (10) (3) 10485760 (by norm_num)
    (by norm_num [abs_of_pos]) (by norm_num [abs_of_pos]) (by norm_num [abs_of_pos])
    (by norm_num)

theorem toFloat_tenth_mul_fifteen : toFloat (13421773 / 134217728 * 15) = 3 / 2 :=
  toFloat_eq_of (13421773 / 134217728 * 15) (3 / 2) (0) 12582912 (by norm_num)
    (by norm_num [abs_of_pos]) (by norm_num [abs_of_pos]) (by norm_num [abs_of_pos])
    (by norm_num)

theorem toFloat_tenth_mul_five : toFloat (13421773 / 134217728 * 5) = 1 / 2 :=
  toFloat_eq_of (13421773 / 134217728 * 5) (1 / 2) (-1) 8388608 (by norm_num)
    (by norm_num [abs_of_pos]) (by norm_num [abs_of_pos]) (by norm_num [abs_of_pos])
    (by norm_num)

theorem toFloat_half_mul_hundred : toFloat (1 / 2 * 100) = 50 :=
  toFloat_eq_of (1 / 2 * 100) (50) (5) 13107200 (by norm_num)
    (by norm_num [abs_of_pos]) (by norm_num [abs_of_pos]) (by norm_num [abs_of_pos])
    (by norm_num)

theorem toFloat_half_mul_fifteen : toFloat (1 / 2 * 15) = 15 / 2 :=
  toFloat_eq_of (1 / 2 * 15) (15 / 2) (2) 15728640 (by norm_num)
    (by norm_num [abs_of_pos]) (by norm_num [abs_of_pos]) (by norm_num [abs_of_pos])
    (by norm_num)

theorem toFloat_half_mul_five : toFloat (1 / 2 * 5) = 5 / 2 :=
  toFloat_eq_of (1 / 2 * 5) (5 / 2) (1) 10485760 (by norm_num)
    (by norm_num [abs_of_pos]) (by norm_num [abs_of_pos]) (by norm_num [abs_of_pos])
    (by norm_num)

theorem toDouble_one : toDouble 1 = 1 :=
  toDouble_eq_of 1 1 0 4503599627370496 (by norm_num)
    (by norm_num [abs_of_pos]) (by norm_num [abs_of_pos]) (by norm_num [abs_of_pos])
    (by norm_num)

theorem truncToInt_ten : truncToInt 10 = 10 := by
  have h := truncToInt_intCast 10
  simpa using h

theorem truncToInt_fifty : truncToInt 50 = 50 := by
  have h := truncToInt_intCast 50
  simpa using h

theorem demoImage_min : ((min demoImage.w demoImage.h : Int) : ℚ) = 100 := by
  norm_num [demoImage]

theorem demoSampler_minSz : demoSampler.minSz demoImage = 10 :=
  minSz_eq demoSampler demoImage _ _ _ _ toFloat_tenth (by rw [demoImage_min, toFloat_hundred])
    toFloat_tenth_mul_hundred truncToInt_ten

theorem demoSampler_maxSz : demoSampler.maxSz demoImage = 50 :=
  maxSz_eq demoSampler demoImage _ _ _ _ toFloat_half (by rw [demoImage_min, toFloat_hundred])
    toFloat_half_mul_hundred truncToInt_fifty

theorem swappedSampler_minSz : swappedSampler.minSz demoImage = 50 :=
  minSz_eq swappedSampler demoImage _ _ _ _ toFloat_half (by rw [demoImage_min, toFloat_hundred])
    toFloat_half_mul_hundred truncToInt_fifty

theorem swappedSampler_maxSz : swappedSampler.maxSz demoImage = 10 :=
  maxSz_eq swappedSampler demoImage _ _ _ _ toFloat_tenth (by rw [demoImage_min, toFloat_hundred])
    toFloat_tenth_mul_hundred truncToInt_ten

theorem demoSampler_small_minSz : demoSampler.minSz ⟨5, 5⟩ = 0 :=
  minSz_eq demoSampler ⟨5, 5⟩ _ _ _ _ toFloat_tenth
    (by rw [show ((min (5 : Int) 5 : Int) : ℚ) = 5 by norm_num, toFloat_five])
    toFloat_tenth_mul_five (by norm_num [truncToInt, Int.floor_eq_iff])

theorem demoSampler_small_maxSz : demoSampler.maxSz ⟨5, 5⟩ = 2 :=
  maxSz_eq demoSampler ⟨5, 5⟩ _ _ _ _ toFloat_half
    (by rw [show ((min (5 : Int) 5 : Int) : ℚ) = 5 by norm_num, toFloat_five])
    toFloat_half_mul_five (by norm_num [truncToInt, Int.floor_eq_iff])

/-! ### The rounding at further inputs

Inputs at which the rounding of the `float` or `double` product decides the integer. -/

theorem toFloat_seven_tenths : toFloat (7 / 10) = 11744051 / 16777216 :=
  toFloat_eq_of (7 / 10) (11744051 / 16777216) (-1) 11744051 (by norm_num)
    (by norm_num [abs_of_pos]) (by norm_num [abs_of_pos]) (by norm_num [abs_of_pos])
    (by norm_num)

theorem toFloat_ten : toFloat (10) = 10 :=
  toFloat_eq_of (10) (10) (3) 10485760 (by norm_num)
    (by norm_num [abs_of_pos]) (by norm_num [abs_of_pos]) (by norm_num [abs_of_pos])
    (by norm_num)

theorem toFloat_seven_tenths_mul_ten : toFloat (11744051 / 16777216 * 10) = 7 :=
  toFloat_eq_of (11744051 / 16777216 * 10) (7) (2) 14680064 (by norm_num)
    (by norm_num [abs_of_pos]) (by norm_num [abs_of_pos]) (by norm_num [abs_of_pos])
    (by norm_num)

theorem toFloat_fifty_three_hundredths : toFloat (53 / 100) = 2222981 / 4194304 :=
  toFloat_eq_of (53 / 100) (2222981 / 4194304) (-1) 8891924 (by norm_num)
    (by norm_num [abs_of_pos]) (by norm_num [abs_of_pos]) (by norm_num [abs_of_pos])
    (by norm_num)

theorem toFloat_fifty_three_hundredths_mul_hundred : toFloat (2222981 / 4194304 * 100) = 13893631 / 262144 :=
  toFloat_eq_of (2222981 / 4194304 * 100) (13893631 / 262144) (5) 13893631 (by norm_num)
    (by norm_num [abs_of_pos]) (by norm_num [abs_of_pos]) (by norm_num [abs_of_pos])
    (by norm_num)

theorem toDouble_four_fifths : toDouble (4 / 5) = 3602879701896397 / 4503599627370496 :=
  toDouble_eq_of (4 / 5) (3602879701896397 / 4503599627370496) (-1) 7205759403792794 (by norm_num)
    (by norm_num [abs_of_pos]) (by norm_num [abs_of_pos]) (by norm_num [abs_of_pos])
    (by norm_num)

theorem toDouble_one_sub_four_fifths : toDouble (1 - 3602879701896397 / 4503599627370496) = 900719925474099 / 4503599627370496 :=
  toDouble_eq_of (1 - 3602879701896397 / 4503599627370496) (900719925474099 / 4503599627370496) (-3) 7205759403792792 (by norm_num)
    (by norm_num [abs_of_pos]) (by norm_num [abs_of_pos]) (by norm_num [abs_of_pos])
    (by norm_num)

theorem toDouble_fifth_mul_five : toDouble (900719925474099 / 4503599627370496 * ((5 : Nat) : ℚ)) = 4503599627370495 / 4503599627370496 :=
  toDouble_eq_of (900719925474099 / 4503599627370496 * ((5 : Nat) : ℚ)) (4503599627370495 / 4503599627370496) (-1) 9007199254740990 (by norm_num)
    (by norm_num [abs_of_pos]) (by norm_num [abs_of_pos]) (by norm_num [abs_of_pos])
    (by norm_num)

/-- With `maxSize = 0.7f` on a frame of 10 by 10 pixels the `float` product rounds up to
7.0 and the upper bound is 7, although the exact product of the stored `float` and 10 is
below 7. -/
theorem maxSz_seven_tenths :
    ({ demoSampler with maxSize := 7 / 10 } : ResamplingSampler Nat).maxSz ⟨10, 10⟩ = 7 ∧
      truncToInt (toFloat (7 / 10) * 10) = 6 := by
  constructor
  · exact maxSz_eq _ ⟨10, 10⟩ _ _ _ _ toFloat_seven_tenths
      (by rw [show ((min (10 : Int) 10 : Int) : ℚ) = 10 by norm_num, toFloat_ten])
      toFloat_seven_tenths_mul_ten (by simpa using truncToInt_intCast 7)
  · rw [toFloat_seven_tenths]
    norm_num [truncToInt, Int.floor_eq_iff]

/-- With `maxSize = 0.53f` on a frame of 100 by 100 pixels the upper bound is 52. -/
theorem maxSz_fifty_three_hundredths :
    ({ demoSampler with maxSize := 53 / 100 } : ResamplingSampler Nat).maxSz demoImage = 52 :=
  maxSz_eq _ demoImage _ _ _ _ toFloat_fifty_three_hundredths
    (by rw [demoImage_min, toFloat_hundred]) toFloat_fifty_three_hundredths_mul_hundred
    (by norm_num [truncToInt, Int.floor_eq_iff])

/-- With `randomRate = 0.8` and `count = 5` the `double` product is just below 1 and
`keep` is 0, although `(1 - 0.8) * 5` is 1 in exact decimal arithmetic. -/
theorem keep_four_fifths :
    ({ demoSampler with randomRate := 4 / 5 } : ResamplingSampler Nat).keep = 0 ∧
      ⌊(1 - (4 / 5 : ℚ)) * 5⌋ = 1 := by
  constructor
  · exact keep_eq _ _ _ _ _ toDouble_four_fifths toDouble_one_sub_four_fifths
      toDouble_fifth_mul_five (by norm_num [truncToInt, Int.floor_eq_iff])
  · norm_num [Int.floor_eq_iff]

theorem demoSampler_frameAdmits : FrameAdmits demoSampler demoImage := by
  unfold FrameAdmits
  rw [demoSampler_minSz, demoSampler_maxSz]
  decide

theorem demoSampler_drawInRange : DrawInRange demoSampler := by
  intro g n hn
  exact ⟨Int.emod_nonneg _ (ne_of_gt hn), Int.emod_lt_of_pos _ hn⟩

theorem demoSampler_resampleExact : ResampleExact demoSampler := by
  intro g samples n newSamples hn
  simp only [demoSampler, List.length_replicate]
  exact Int.toNat_of_nonneg hn

/-- The whole of `sample`: it returns, the result has `count` entries (or as many as the
resampler returned, if these are more), and every entry is valid. -/
theorem sample_spec (s : ResamplingSampler σ) (g : σ) (samples : List Sample)
    (offset : List ℚ) (image : FdImage) (newSamples : List Sample)
    (hdraw : DrawInRange s) (hframe : FrameAdmits s image) :
    ∃ r, s.sample g samples offset image newSamples = some r ∧
      r.1.length = max (s.resample g samples
        s.keep newSamples).1.length s.count ∧
      ∀ p ∈ r.1, s.isValid p image = true := by
  rcases hres : s.resample g samples s.keep
    newSamples with ⟨newSamples1, g1⟩
  obtain ⟨⟨newSamples2, g2⟩, hp, hlen, hval⟩ :=
    predictSamples_spec s offset image hdraw hframe newSamples1 g1
  obtain ⟨r, hr, hrlen, hrval⟩ :=
    addRandomSamples_spec s image hdraw hframe _ s.newSample newSamples2 g2 rfl
  refine ⟨r, ?_, ?_, hrval hval⟩
  · simp only [ResamplingSampler.sample, hres, hp]
    exact hr
  · rw [hrlen]
    exact congrArg (fun n => max n s.count) hlen

/-- C1: `ResamplingSampler::sample` returns, and the population it returns has exactly
`count` samples, for every previous population, offset and frame, when `randomRate` lies
in `[0, 1]`, the resampling algorithm returns exactly the requested number of samples, the
random engine draws within the requested range, and the frame admits fresh samples. -/
theorem sample_length_eq_count (s : ResamplingSampler σ) (g : σ) (samples : List Sample)
    (offset : List ℚ) (image : FdImage) (newSamples : List Sample)
    (hrate0 : 0 ≤ s.randomRate) (hrate1 : s.randomRate ≤ 1)
    (hres : ResampleExact s) (hdraw : DrawInRange s) (hframe : FrameAdmits s image) :
    ∃ r, s.sample g samples offset image newSamples = some r ∧ r.1.length = s.count := by
  obtain ⟨r, hr, hlen, _⟩ := sample_spec s g samples offset image newSamples hdraw hframe
  obtain ⟨k0, k1⟩ := keep_bounds s hrate0 hrate1
  have hk := hres g samples _ newSamples k0
  refine ⟨r, hr, ?_⟩
  rw [hlen]
  apply max_eq_right
  omega

theorem sample_length_eq_count_witness :
    (0 ≤ demoSampler.randomRate ∧ demoSampler.randomRate ≤ 1 ∧ ResampleExact demoSampler ∧
      DrawInRange demoSampler ∧ FrameAdmits demoSampler demoImage) ∧
    ∃ r, demoSampler.sample 0 [⟨50, 50, 20, 1⟩] [0, 0] demoImage [] = some r ∧
      r.1.length = demoSampler.count :=
  ⟨⟨by norm_num [demoSampler], by norm_num [demoSampler], demoSampler_resampleExact,
      demoSampler_drawInRange, demoSampler_frameAdmits⟩,
    sample_length_eq_count demoSampler 0 [⟨50, 50, 20, 1⟩] [0, 0] demoImage []
      (by norm_num [demoSampler]) (by norm_num [demoSampler]) demoSampler_resampleExact
      demoSampler_drawInRange demoSampler_frameAdmits⟩

/-- C2: every sample written by `sampleValid` passes `isValid` for the same frame: when
`0 <= minSz < maxSz <= min(w, h)` for the truncated bounds and every draw with range
`n > 0` lies in `[0, n)`, `sampleValid` returns and `isValid` is true of its result. -/
theorem sampleValid_isValid (s : ResamplingSampler σ) (g : σ) (sample : Sample)
    (image : FdImage) (hdraw : DrawInRange s) (hframe : FrameAdmits s image) :
    ∃ r, s.sampleValid g sample image = some r ∧ s.isValid r.1 image = true := by
  obtain ⟨r, hr, hfresh, _⟩ := sampleValid_fresh s g sample image hdraw hframe
  exact ⟨r, hr, fresh_isValid s image r.1 hfresh⟩

theorem sampleValid_isValid_witness :
    (DrawInRange demoSampler ∧ FrameAdmits demoSampler demoImage) ∧
    ∃ r, demoSampler.sampleValid 7 ⟨0, 0, 0, 0⟩ demoImage = some r ∧
      demoSampler.isValid r.1 demoImage = true :=
  ⟨⟨demoSampler_drawInRange, demoSampler_frameAdmits⟩,
    sampleValid_isValid demoSampler 7 ⟨0, 0, 0, 0⟩ demoImage demoSampler_drawInRange
      demoSampler_frameAdmits⟩

/-- C3: every sample in the population returned by `ResamplingSampler::sample` passes
`isValid` against the current frame, whatever the transition model predicts and whatever
the resampling algorithm returns, when the frame admits fresh samples and the random
engine draws within the requested range. -/
theorem sample_all_valid (s : ResamplingSampler σ) (g : σ) (samples : List Sample)
    (offset : List ℚ) (image : FdImage) (newSamples : List Sample)
    (hdraw : DrawInRange s) (hframe : FrameAdmits s image) :
    ∃ r, s.sample g samples offset image newSamples = some r ∧
      ∀ p ∈ r.1, s.isValid p image = true := by
  obtain ⟨r, hr, _, hval⟩ := sample_spec s g samples offset image newSamples hdraw hframe
  exact ⟨r, hr, hval⟩

theorem sample_all_valid_witness :
    (DrawInRange demoSampler ∧ FrameAdmits demoSampler demoImage) ∧
    ∃ r, demoSampler.sample 3 [⟨50, 50, 20, 1⟩, ⟨10, 10, 12, 0⟩] [0, 0] demoImage [] = some r ∧
      ∀ p ∈ r.1, demoSampler.isValid p demoImage = true :=
  ⟨⟨demoSampler_drawInRange, demoSampler_frameAdmits⟩,
    sample_all_valid demoSampler 3 [⟨50, 50, 20, 1⟩, ⟨10, 10, 12, 0⟩] [0, 0] demoImage []
      demoSampler_drawInRange demoSampler_frameAdmits⟩

/-- The decision of `isValid`, spelled out. -/
theorem isValid_iff (s : ResamplingSampler σ) (p : Sample) (image : FdImage) :
    s.isValid p image = true ↔
      s.minSz image ≤ p.size ∧ p.size ≤ s.maxSz image ∧ RegionInside p image := by
  simp only [ResamplingSampler.isValid, RegionInside, Bool.and_eq_true, decide_eq_true_eq,
    ge_iff_le, and_assoc]

/-- C4, as stated, fails: on a frame of 15 by 15 pixels with `minSize = 0.1` the real lower
bound is 1.5 (and the `float` product is 1.5 as well), which the cast truncates to 1; a
sample of size 1 at (5, 5) is accepted by `isValid` although 1.5 <= 1 does not hold. -/
theorem isValid_real_bounds_counterexample :
    demoSampler.isValid ⟨5, 5, 1, 0⟩ ⟨15, 15⟩ = true ∧
      ¬ IsValidSpec demoSampler ⟨5, 5, 1, 0⟩ ⟨15, 15⟩ := by
  have hm : toFloat ((min (15 : Int) 15 : Int) : ℚ) = 15 := by
    rw [show ((min (15 : Int) 15 : Int) : ℚ) = 15 by norm_num, toFloat_fifteen]
  have h1 : demoSampler.minSz ⟨15, 15⟩ = 1 :=
    minSz_eq demoSampler ⟨15, 15⟩ _ _ _ _ toFloat_tenth hm toFloat_tenth_mul_fifteen
      (by norm_num [truncToInt, Int.floor_eq_iff])
  have h2 : demoSampler.maxSz ⟨15, 15⟩ = 7 :=
    maxSz_eq demoSampler ⟨15, 15⟩ _ _ _ _ toFloat_half hm toFloat_half_mul_fifteen
      (by norm_num [truncToInt, Int.floor_eq_iff])
  constructor
  · rw [isValid_iff, h1, h2]
    decide
  · intro h
    have h3 := h.1
    norm_num [demoSampler] at h3

/-- C4, amended: `isValid(sample, image)` is true if and only if
`minSz <= sample.size <= maxSz` for the integer bounds the code computes,
`minSz = (int)(minSize * min(width, height))` and `maxSz = (int)(maxSize * min(width, height))`
(the minimum converted to `float`, the product taken in `float` arithmetic and rounded to
nearest, the cast truncating towards zero), and the region of the sample, `size` wide and
high with corner `(x - size / 2, y - size / 2)`, lies within the frame. -/
theorem isValid_iff_float_bounds (s : ResamplingSampler σ) (p : Sample) (image : FdImage) :
    s.isValid p image = true ↔
      truncToInt (toFloat (toFloat s.minSize * toFloat ((min image.w image.h : Int) : ℚ))) ≤
        p.size ∧
      p.size ≤
        truncToInt (toFloat (toFloat s.maxSize * toFloat ((min image.w image.h : Int) : ℚ))) ∧
      0 ≤ p.x - Int.tdiv p.size 2 ∧ p.x - Int.tdiv p.size 2 + p.size ≤ image.w ∧
      0 ≤ p.y - Int.tdiv p.size 2 ∧ p.y - Int.tdiv p.size 2 + p.size ≤ image.h := by
  rw [isValid_iff, ResamplingSampler.minSz, ResamplingSampler.maxSz, RegionInside]

/-- C10: the concrete scenario.  A sampler with `count = 5`, `randomRate = 1.0`,
`minSize = 0.1`, `maxSize = 0.5` on a frame of 100 by 100 pixels, called with an empty
previous population and offset `[0, 0]`, returns exactly 5 samples, and for every outcome
of the random engine each of them has its size in `[10, 50]` and its region within the
frame: `0 <= x - size/2`, `x - size/2 + size <= 100`, and the same for `y`. -/
theorem scenario_sampler
    (resample : σ → List Sample → Int → List Sample → List Sample × σ)
    (predict : σ → Sample → List ℚ → Sample × σ) (draw : σ → Int → Int × σ)
    (newSample : Sample) (g : σ) (newSamples : List Sample)
    (hres : ResampleExact (scenarioSampler resample predict draw newSample))
    (hdraw : DrawInRange (scenarioSampler resample predict draw newSample)) :
    ∃ r, (scenarioSampler resample predict draw newSample).sample g [] [0, 0] ⟨100, 100⟩
        newSamples = some r ∧
      r.1.length = 5 ∧
      ∀ p ∈ r.1, 10 ≤ p.size ∧ p.size ≤ 50 ∧
        0 ≤ p.x - Int.tdiv p.size 2 ∧ p.x - Int.tdiv p.size 2 + p.size ≤ 100 ∧
        0 ≤ p.y - Int.tdiv p.size 2 ∧ p.y - Int.tdiv p.size 2 + p.size ≤ 100 := by
  have hm : toFloat ((min (100 : Int) 100 : Int) : ℚ) = 100 := by
    rw [show ((min (100 : Int) 100 : Int) : ℚ) = 100 by norm_num, toFloat_hundred]
  have hmin : (scenarioSampler resample predict draw newSample).minSz ⟨100, 100⟩ = 10 :=
    minSz_eq _ ⟨100, 100⟩ _ _ _ _ toFloat_tenth hm toFloat_tenth_mul_hundred truncToInt_ten
  have hmax : (scenarioSampler resample predict draw newSample).maxSz ⟨100, 100⟩ = 50 :=
    maxSz_eq _ ⟨100, 100⟩ _ _ _ _ toFloat_half hm toFloat_half_mul_hundred truncToInt_fifty
  have hframe : FrameAdmits (scenarioSampler resample predict draw newSample) ⟨100, 100⟩ := by
    unfold FrameAdmits
    rw [hmin, hmax]
    decide
  obtain ⟨r, hr, hlen, hval⟩ := sample_spec (scenarioSampler resample predict draw newSample)
    g [] [0, 0] ⟨100, 100⟩ newSamples hdraw hframe
  have hkeep : (scenarioSampler resample predict draw newSample).keep = 0 :=
    keep_eq _ 1 0 0 0 toDouble_one (by rw [sub_self, toDouble_zero])
      (by rw [zero_mul, toDouble_zero]) (by simpa using truncToInt_intCast 0)
  have hk := hres g [] 0 newSamples (le_refl 0)
  rw [hkeep] at hlen
  refine ⟨r, hr, ?_, ?_⟩
  · rw [hlen]
    have hc : (scenarioSampler resample predict draw newSample).count = 5 := rfl
    rw [hc]
    omega
  · intro p hp
    have hv := (isValid_iff _ p _).mp (hval p hp)
    rw [hmin, hmax] at hv
    exact hv

theorem scenario_sampler_witness :
    (ResampleExact (scenarioSampler demoSampler.resample demoSampler.predict demoSampler.draw
        demoSampler.newSample) ∧
      DrawInRange (scenarioSampler demoSampler.resample demoSampler.predict demoSampler.draw
        demoSampler.newSample)) ∧
    ∃ r, (scenarioSampler demoSampler.resample demoSampler.predict demoSampler.draw
        demoSampler.newSample).sample 0 [] [0, 0] ⟨100, 100⟩ [] = some r ∧
      r.1.length = 5 ∧
      ∀ p ∈ r.1, 10 ≤ p.size ∧ p.size ≤ 50 ∧
        0 ≤ p.x - Int.tdiv p.size 2 ∧ p.x - Int.tdiv p.size 2 + p.size ≤ 100 ∧
        0 ≤ p.y - Int.tdiv p.size 2 ∧ p.y - Int.tdiv p.size 2 + p.size ≤ 100 :=
  ⟨⟨fun g samples n newSamples hn => demoSampler_resampleExact g samples n newSamples hn,
      fun g n hn => demoSampler_drawInRange g n hn⟩,
    scenario_sampler demoSampler.resample demoSampler.predict demoSampler.draw
      demoSampler.newSample 0 []
      (fun g samples n newSamples hn => demoSampler_resampleExact g samples n newSamples hn)
      (fun g n hn => demoSampler_drawInRange g n hn)⟩

/-! ### The structure of the returned population -/

/-- `sampleValid` leaves the weight of the sample as it was. -/
theorem sampleValid_weight (s : ResamplingSampler σ) (g : σ) (sample : Sample)
    (image : FdImage) (r : Sample × σ) (h : s.sampleValid g sample image = some r) :
    r.1.weight = sample.weight := by
  unfold ResamplingSampler.sampleValid at h
  dsimp only at h
  split at h
  · simp at h
  · split at h
    · simp at h
    · split at h
      · simp at h
      · simp only [Option.some.injEq] at h
        rw [← h]

/-- The result of `sampleValid` depends on the sample it is given through the weight
only. -/
theorem sampleValid_congr_weight (s : ResamplingSampler σ) (g : σ) (a b : Sample)
    (image : FdImage) (h : a.weight = b.weight) :
    s.sampleValid g a image = s.sampleValid g b image := by
  unfold ResamplingSampler.sampleValid
  simp only [h]

/-- Position by position, the first loop turns a sample into its repaired prediction. -/
theorem predictSamples_forall2 (s : ResamplingSampler σ) (offset : List ℚ) (image : FdImage)
    (newSamples : List Sample) :
    ∀ (g : σ) (r : List Sample × σ), s.predictSamples offset image newSamples g = some r →
      List.Forall₂ (Repaired s offset image) newSamples r.1 := by
  induction newSamples with
  | nil =>
    intro g r h
    simp only [ResamplingSampler.predictSamples, Option.some.injEq] at h
    rw [← h]
    exact List.Forall₂.nil
  | cons sample rest ih =>
    intro g r h
    rcases hp : s.predict g sample offset with ⟨predicted, g1⟩
    simp only [ResamplingSampler.predictSamples, hp] at h
    by_cases hv : s.isValid predicted image = true
    · rw [if_pos hv] at h
      dsimp only at h
      rcases hrest : s.predictSamples offset image rest g1 with _ | ⟨rest1, g3⟩
      · rw [hrest] at h
        simp at h
      · rw [hrest] at h
        simp only [Option.some.injEq] at h
        rw [← h]
        exact List.Forall₂.cons ⟨g, g1, predicted, hp, Or.inl ⟨hv, rfl⟩⟩ (ih g1 _ hrest)
    · rw [if_neg hv] at h
      rcases hfix : s.sampleValid g1 predicted image with _ | ⟨sample1, g2⟩
      · rw [hfix] at h
        simp at h
      · rw [hfix] at h
        dsimp only at h
        rcases hrest : s.predictSamples offset image rest g2 with _ | ⟨rest1, g3⟩
        · rw [hrest] at h
          simp at h
        · rw [hrest] at h
          simp only [Option.some.injEq] at h
          rw [← h]
          have hv2 : s.isValid predicted image = false := by simpa using hv
          exact List.Forall₂.cons ⟨g, g1, predicted, hp, Or.inr ⟨hv2, g2, hfix⟩⟩
            (ih g2 _ hrest)

/-- The second loop appends `count - newSamples.size()` samples, each of them written by
`sampleValid` on a sample with the weight of the default-constructed one. -/
theorem addRandomSamples_append (s : ResamplingSampler σ) (image : FdImage) :
    ∀ (n : Nat) (newSample : Sample) (newSamples : List Sample) (g : σ) (r : List Sample × σ),
      s.count - newSamples.length = n → newSample.weight = s.newSample.weight →
      s.addRandomSamples image newSample newSamples g = some r →
      ∃ fresh, r.1 = newSamples ++ fresh ∧ fresh.length = s.count - newSamples.length ∧
        ∀ q ∈ fresh, Padded s image q := by
  intro n
  induction n with
  | zero =>
    intro newSample newSamples g r hn _ h
    have hge : ¬ newSamples.length < s.count := by omega
    rw [addRandomSamples_unfold, if_neg hge] at h
    simp only [Option.some.injEq] at h
    refine ⟨[], ?_, ?_, by simp⟩
    · rw [← h, List.append_nil]
    · simp only [List.length_nil]
      omega
  | succ n ih =>
    intro newSample newSamples g r hn hw h
    have hlt : newSamples.length < s.count := by omega
    rw [addRandomSamples_unfold, if_pos hlt] at h
    rcases hq : s.sampleValid g newSample image with _ | ⟨newSample1, g1⟩
    · rw [hq] at h
      simp at h
    · rw [hq] at h
      dsimp only at h
      have hw1 : newSample1.weight = s.newSample.weight := by
        rw [← hw]
        exact sampleValid_weight s g newSample image _ hq
      have hn1 : s.count - (newSamples ++ [newSample1]).length = n := by
        simp only [List.length_append, List.length_singleton]
        omega
      obtain ⟨fresh, hr, hlen, hall⟩ := ih newSample1 (newSamples ++ [newSample1]) g1 r hn1 hw1 h
      refine ⟨newSample1 :: fresh, ?_, ?_, ?_⟩
      · rw [hr, List.append_assoc, List.singleton_append]
      · rw [List.length_cons, hlen]
        simp only [List.length_append, List.length_singleton]
        omega
      · intro q hmem
        rcases List.mem_cons.mp hmem with hq1 | hq1
        · rw [hq1]
          refine ⟨g, g1, ?_⟩
          rw [← sampleValid_congr_weight s g newSample s.newSample image hw]
          exact hq
        · exact hall q hq1

/-- The population returned by `sample` is the repaired predictions of the resampled
samples followed by the padding. -/
theorem sample_structure (s : ResamplingSampler σ) (g : σ) (samples : List Sample)
    (offset : List ℚ) (image : FdImage) (newSamples : List Sample) (r : List Sample × σ)
    (h : s.sample g samples offset image newSamples = some r) :
    ∃ repaired fresh, r.1 = repaired ++ fresh ∧
      List.Forall₂ (Repaired s offset image)
        (s.resample g samples s.keep newSamples).1
        repaired ∧
      fresh.length = s.count - repaired.length ∧ ∀ q ∈ fresh, Padded s image q := by
  rcases hres : s.resample g samples s.keep
    newSamples with ⟨newSamples1, g1⟩
  simp only [ResamplingSampler.sample, hres] at h
  rcases hp : s.predictSamples offset image newSamples1 g1 with _ | ⟨newSamples2, g2⟩
  · rw [hp] at h
    simp at h
  · rw [hp] at h
    dsimp only at h
    obtain ⟨fresh, hr, hlen, hall⟩ :=
      addRandomSamples_append s image _ s.newSample newSamples2 g2 r rfl rfl h
    exact ⟨newSamples2, fresh, hr, predictSamples_forall2 s offset image newSamples1 g1 _ hp,
      hlen, hall⟩

theorem forall₂_getElem? {β γ : Type} {R : β → γ → Prop} {xs : List β} {ys : List γ}
    (h : List.Forall₂ R xs ys) :
    ∀ (i : Nat) (x : β), xs[i]? = some x → ∃ y, ys[i]? = some y ∧ R x y := by
  induction h with
  | nil =>
    intro i x hx
    simp at hx
  | cons hxy _ ih =>
    intro i x hx
    cases i with
    | zero =>
      simp only [List.getElem?_cons_zero, Option.some.injEq] at hx
      exact ⟨_, by simp, hx ▸ hxy⟩
    | succ i =>
      simp only [List.getElem?_cons_succ] at hx ⊢
      exact ih i x hx

/-- Under the usual preconditions `sample` returns the repaired predictions of exactly
`keep` resampled samples followed by exactly `count - keep` padded samples. -/
theorem sample_positions (s : ResamplingSampler σ) (g : σ) (samples : List Sample)
    (offset : List ℚ) (image : FdImage) (newSamples : List Sample)
    (hrate0 : 0 ≤ s.randomRate) (hrate1 : s.randomRate ≤ 1)
    (hres : ResampleExact s) (hdraw : DrawInRange s) (hframe : FrameAdmits s image) :
    ∃ (repaired fresh : List Sample) (g1 : σ),
      s.sample g samples offset image newSamples = some (repaired ++ fresh, g1) ∧
      List.Forall₂ (Repaired s offset image)
        (s.resample g samples s.keep newSamples).1
        repaired ∧
      (repaired.length : Int) = s.keep ∧
      (fresh.length : Int) = (s.count : Int) - s.keep ∧
      ∀ q ∈ fresh, Padded s image q := by
  obtain ⟨⟨out, g1⟩, hr, _, _⟩ := sample_spec s g samples offset image newSamples hdraw hframe
  obtain ⟨repaired, fresh, hout, hrep, hlen, hall⟩ :=
    sample_structure s g samples offset image newSamples _ hr
  obtain ⟨k0, k1⟩ := keep_bounds s hrate0 hrate1
  have hk := hres g samples _ newSamples k0
  have hl := hrep.length_eq
  dsimp only at hout
  refine ⟨repaired, fresh, g1, by rw [hr, hout], hrep, ?_, ?_, hall⟩
  · rw [← hl]
    exact hk
  · rw [hlen]
    omega

theorem toDouble_tenth :
    toDouble (3602879701896397 / 36028797018963968) = 3602879701896397 / 36028797018963968 :=
  toDouble_eq_of (3602879701896397 / 36028797018963968) (3602879701896397 / 36028797018963968)
    (-4) 7205759403792794 (by norm_num)
    (by norm_num [abs_of_pos]) (by norm_num [abs_of_pos]) (by norm_num [abs_of_pos])
    (by norm_num)

theorem toDouble_one_sub_tenth :
    toDouble (1 - 3602879701896397 / 36028797018963968) =
      8106479329266893 / 9007199254740992 :=
  toDouble_eq_of (1 - 3602879701896397 / 36028797018963968)
    (8106479329266893 / 9007199254740992) (-1) 8106479329266893 (by norm_num)
    (by norm_num [abs_of_pos]) (by norm_num [abs_of_pos]) (by norm_num [abs_of_pos])
    (by norm_num)

theorem toDouble_nine_tenths_mul_ten :
    toDouble (8106479329266893 / 9007199254740992 * ((10 : Nat) : ℚ)) = 9 :=
  toDouble_eq_of (8106479329266893 / 9007199254740992 * ((10 : Nat) : ℚ)) 9 3
    5066549580791808 (by norm_num)
    (by norm_num [abs_of_pos]) (by norm_num [abs_of_pos]) (by norm_num [abs_of_pos])
    (by norm_num)

/-- C11, as stated, fails: with `randomRate` the `double` 0.1 and `count = 10` the code
computes `1 - randomRate` as the `double` 0.9 (rounded up) and the product as 9.0, so
`sample` asks the resampling algorithm for 9 samples, while the floor of the exact product
`(1 - randomRate) * count = 8.99999999999999994...` is 8. -/
theorem sample_keep_floor_counterexample :
    toDouble tenthRateSampler.randomRate = tenthRateSampler.randomRate ∧
    0 ≤ tenthRateSampler.randomRate ∧ tenthRateSampler.randomRate ≤ 1 ∧
    tenthRateSampler.keep = 9 ∧
    ⌊(1 - tenthRateSampler.randomRate) * (tenthRateSampler.count : ℚ)⌋ = 8 := by
  refine ⟨toDouble_tenth, by norm_num [tenthRateSampler], by norm_num [tenthRateSampler],
    ?_, ?_⟩
  · exact keep_eq tenthRateSampler _ _ _ _ toDouble_tenth toDouble_one_sub_tenth
      toDouble_nine_tenths_mul_ten (by simpa using truncToInt_intCast 9)
  · norm_num [tenthRateSampler, demoSampler, Int.floor_eq_iff]

/-- C11, amended: for every `randomRate` in `[0, 1]` and every `count`, `sample` asks the
resampling algorithm for exactly `keep = floor(p)` samples, where `p` is the product as
the code computes it in `double` arithmetic, `p = fl(fl(1 - randomRate) * count)` with
`fl` rounding to the nearest `double` (the truncating cast coincides with the floor since
`p >= 0`); `0 <= keep <= count`, and the returned population is the `keep` repaired
predictions followed by exactly `count - keep` fresh random samples. -/
theorem sample_keep_eq_floor_double (s : ResamplingSampler σ) (g : σ) (samples : List Sample)
    (offset : List ℚ) (image : FdImage) (newSamples : List Sample)
    (hrate0 : 0 ≤ s.randomRate) (hrate1 : s.randomRate ≤ 1)
    (hres : ResampleExact s) (hdraw : DrawInRange s) (hframe : FrameAdmits s image) :
    s.keep = ⌊toDouble (toDouble (1 - toDouble s.randomRate) * (s.count : ℚ))⌋ ∧
    0 ≤ s.keep ∧ s.keep ≤ (s.count : Int) ∧
    ∃ (repaired fresh : List Sample) (g1 : σ),
      s.sample g samples offset image newSamples = some (repaired ++ fresh, g1) ∧
      List.Forall₂ (Repaired s offset image)
        (s.resample g samples s.keep newSamples).1 repaired ∧
      (repaired.length : Int) = s.keep ∧
      (fresh.length : Int) = (s.count : Int) - s.keep ∧
      ∀ q ∈ fresh, Padded s image q := by
  obtain ⟨k0, k1⟩ := keep_bounds s hrate0 hrate1
  have hpos := sample_positions s g samples offset image newSamples hrate0 hrate1 hres hdraw
    hframe
  refine ⟨?_, k0, k1, hpos⟩
  have hr1 : toDouble s.randomRate ≤ ((1 : Nat) : ℚ) :=
    roundToFormat_le_natCast 53 (-1022) (by norm_num) _ 1 (by norm_num) (by simpa using hrate1)
  have hp : 0 ≤ toDouble (toDouble (1 - toDouble s.randomRate) * (s.count : ℚ)) :=
    roundToFormat_nonneg 53 (-1022) _
      (mul_nonneg (roundToFormat_nonneg 53 (-1022) _ (by simpa using hr1))
        (Nat.cast_nonneg s.count))
  rw [ResamplingSampler.keep, truncToInt_of_nonneg _ hp]

theorem sample_keep_eq_floor_double_witness :
    (0 ≤ demoSampler.randomRate ∧ demoSampler.randomRate ≤ 1 ∧ ResampleExact demoSampler ∧
      DrawInRange demoSampler ∧ FrameAdmits demoSampler demoImage) ∧
    (demoSampler.keep =
        ⌊toDouble (toDouble (1 - toDouble demoSampler.randomRate) * (demoSampler.count : ℚ))⌋ ∧
      0 ≤ demoSampler.keep ∧ demoSampler.keep ≤ (demoSampler.count : Int) ∧
      ∃ (repaired fresh : List Sample) (g1 : Nat),
        demoSampler.sample 0 [⟨50, 50, 20, 1⟩] [0, 0] demoImage [] =
          some (repaired ++ fresh, g1) ∧
        List.Forall₂ (Repaired demoSampler [0, 0] demoImage)
          (demoSampler.resample 0 [⟨50, 50, 20, 1⟩] demoSampler.keep []).1 repaired ∧
        (repaired.length : Int) = demoSampler.keep ∧
        (fresh.length : Int) = (demoSampler.count : Int) - demoSampler.keep ∧
        ∀ q ∈ fresh, Padded demoSampler demoImage q) :=
  ⟨⟨by norm_num [demoSampler], by norm_num [demoSampler], demoSampler_resampleExact,
      demoSampler_drawInRange, demoSampler_frameAdmits⟩,
    sample_keep_eq_floor_double demoSampler 0 [⟨50, 50, 20, 1⟩] [0, 0] demoImage []
      (by norm_num [demoSampler]) (by norm_num [demoSampler]) demoSampler_resampleExact
      demoSampler_drawInRange demoSampler_frameAdmits⟩

theorem distribution_eq_some (s : ResamplingSampler σ) (g g1 : σ) (n r : Int)
    (h : s.distribution g n = some (r, g1)) : 0 < n ∧ s.draw g n = (r, g1) := by
  unfold ResamplingSampler.distribution at h
  by_cases hn : 0 < n
  · rw [if_pos hn] at h
    exact ⟨hn, Option.some.inj h⟩
  · rw [if_neg hn] at h
    simp at h

/-- When `sampleValid` returns, its three draws were requested with positive ranges, and
the result is made of them. -/
theorem sampleValid_eq_some (s : ResamplingSampler σ) (g : σ) (sample : Sample)
    (image : FdImage) (r : Sample × σ) (h : s.sampleValid g sample image = some r) :
    ∃ (r1 r2 r3 : Int) (g1 g2 g3 : σ),
      0 < s.maxSz image - s.minSz image ∧
      s.draw g (s.maxSz image - s.minSz image) = (r1, g1) ∧
      0 < image.w - (r1 + s.minSz image) ∧
      s.draw g1 (image.w - (r1 + s.minSz image)) = (r2, g2) ∧
      0 < image.h - (r1 + s.minSz image) ∧
      s.draw g2 (image.h - (r1 + s.minSz image)) = (r3, g3) ∧
      r = ({ x := r2 + Int.tdiv (r1 + s.minSz image) 2,
             y := r3 + Int.tdiv (r1 + s.minSz image) 2,
             size := r1 + s.minSz image,
             weight := sample.weight }, g3) := by
  unfold ResamplingSampler.sampleValid at h
  dsimp only at h
  split at h
  · simp at h
  · rename_i r1 g1 e1
    split at h
    · simp at h
    · rename_i r2 g2 e2
      split at h
      · simp at h
      · rename_i r3 g3 e3
        obtain ⟨p1, d1⟩ := distribution_eq_some s _ _ _ _ e1
        obtain ⟨p2, d2⟩ := distribution_eq_some s _ _ _ _ e2
        obtain ⟨p3, d3⟩ := distribution_eq_some s _ _ _ _ e3
        exact ⟨r1, r2, r3, g1, g2, g3, p1, d1, p2, d2, p3, d3, (Option.some.inj h).symm⟩

/-- Every sample written by `sampleValid` has a size of at least `minSz`. -/
theorem sampleValid_size_ge (s : ResamplingSampler σ) (g : σ) (sample : Sample)
    (image : FdImage) (r : Sample × σ) (hdraw : DrawInRange s)
    (h : s.sampleValid g sample image = some r) : s.minSz image ≤ r.1.size := by
  obtain ⟨r1, r2, r3, g1, g2, g3, p1, d1, _, _, _, _, hr⟩ :=
    sampleValid_eq_some s g sample image r h
  have hd := (hdraw g _ p1).1
  rw [d1] at hd
  rw [hr]
  dsimp only at hd ⊢
  omega

/-- C12, as stated, fails: on a frame of 5 by 5 pixels with `minSize = 0.1` and
`maxSize = 0.5` the truncated bounds are 0 and 2; a sample of size 0 at (0, 0) passes
`isValid`, and `sampleValid` itself writes a sample of size 0 when the first draw is 0. -/
theorem size_positive_counterexample :
    (demoSampler.isValid ⟨0, 0, 0, 0⟩ ⟨5, 5⟩ = true ∧ ¬ 0 < (⟨0, 0, 0, 0⟩ : Sample).size) ∧
    (DrawInRange demoSampler ∧ FrameAdmits demoSampler ⟨5, 5⟩ ∧
      demoSampler.sampleValid 0 ⟨0, 0, 0, 0⟩ ⟨5, 5⟩ = some (⟨1, 2, 0, 0⟩, 3) ∧
      ¬ 0 < (⟨1, 2, 0, 0⟩ : Sample).size) := by
  refine ⟨⟨?_, by decide⟩, demoSampler_drawInRange, ?_, ?_, by decide⟩
  · rw [isValid_iff, demoSampler_small_minSz, demoSampler_small_maxSz]
    decide
  · unfold FrameAdmits
    rw [demoSampler_small_minSz, demoSampler_small_maxSz]
    decide
  · rw [sampleValid_of_draws demoSampler 0 1 2 3 0 1 2 ⟨0, 0, 0, 0⟩ ⟨5, 5⟩
      (by rw [demoSampler_small_minSz, demoSampler_small_maxSz]; decide)
      (by rw [demoSampler_small_minSz, demoSampler_small_maxSz]; rfl)
      (by rw [demoSampler_small_minSz]; decide)
      (by rw [demoSampler_small_minSz]; rfl)
      (by rw [demoSampler_small_minSz]; decide)
      (by rw [demoSampler_small_minSz]; rfl)]
    rw [demoSampler_small_minSz]
    rfl

/-- C12, amended: every validated sample has a size of at least `minSz`, the integer
`(int)(minSize * min(w, h))` that the code computes: if `isValid(sample, image)` is true
then `sample.size >= minSz`, and every sample produced by `sampleValid` (with draws in
`[0, n)`) has `size >= minSz`; hence the size is positive whenever `minSz >= 1`. -/
theorem size_ge_minSz (s : ResamplingSampler σ) (g : σ) (sample : Sample)
    (image : FdImage) (hdraw : DrawInRange s) :
    (s.isValid sample image = true → s.minSz image ≤ sample.size) ∧
    (∀ r, s.sampleValid g sample image = some r → s.minSz image ≤ r.1.size) ∧
    (1 ≤ s.minSz image →
      (s.isValid sample image = true → 0 < sample.size) ∧
      (∀ r, s.sampleValid g sample image = some r → 0 < r.1.size)) := by
  have h1 : s.isValid sample image = true → s.minSz image ≤ sample.size :=
    fun hv => ((isValid_iff s sample image).mp hv).1
  have h2 : ∀ r, s.sampleValid g sample image = some r → s.minSz image ≤ r.1.size :=
    fun r hr => sampleValid_size_ge s g sample image r hdraw hr
  refine ⟨h1, h2, fun hmin => ⟨fun hv => ?_, fun r hr => ?_⟩⟩
  · have h := h1 hv
    omega
  · have h := h2 r hr
    omega

theorem size_ge_minSz_witness :
    DrawInRange demoSampler ∧
    (1 ≤ demoSampler.minSz demoImage ∧
      demoSampler.isValid ⟨50, 50, 20, 0⟩ demoImage = true) ∧
    ((demoSampler.isValid ⟨50, 50, 20, 0⟩ demoImage = true →
        demoSampler.minSz demoImage ≤ (⟨50, 50, 20, 0⟩ : Sample).size) ∧
      (∀ r, demoSampler.sampleValid 0 ⟨50, 50, 20, 0⟩ demoImage = some r →
        demoSampler.minSz demoImage ≤ r.1.size) ∧
      (1 ≤ demoSampler.minSz demoImage →
        (demoSampler.isValid ⟨50, 50, 20, 0⟩ demoImage = true →
          0 < (⟨50, 50, 20, 0⟩ : Sample).size) ∧
        (∀ r, demoSampler.sampleValid 0 ⟨50, 50, 20, 0⟩ demoImage = some r → 0 < r.1.size))) :=
  ⟨demoSampler_drawInRange,
    ⟨by rw [demoSampler_minSz]; decide, by
      rw [isValid_iff, demoSampler_minSz, demoSampler_maxSz]
      decide⟩,
    size_ge_minSz demoSampler 0 ⟨50, 50, 20, 0⟩ demoImage demoSampler_drawInRange⟩

theorem two_mul_tdiv_two_le (n : Int) (h : 0 ≤ n) : 2 * Int.tdiv n 2 ≤ n := by
  rw [Int.tdiv_eq_ediv h (by decide)]
  omega

/-- C16: for every sample produced by `sampleValid` on a frame with
`0 <= minSz < maxSz <= min(w, h)` and every outcome of the random engine (draws in
`[0, n)`), the size lies in `[minSz, maxSz]` and, with `halfSize = size / 2`,
`halfSize <= x < width - halfSize` and `halfSize <= y < height - halfSize`. -/
theorem sampleValid_position_bounds (s : ResamplingSampler σ) (g : σ) (sample : Sample)
    (image : FdImage) (hdraw : DrawInRange s) (hframe : FrameAdmits s image) :
    ∃ r, s.sampleValid g sample image = some r ∧
      s.minSz image ≤ r.1.size ∧ r.1.size ≤ s.maxSz image ∧
      Int.tdiv r.1.size 2 ≤ r.1.x ∧ r.1.x < image.w - Int.tdiv r.1.size 2 ∧
      Int.tdiv r.1.size 2 ≤ r.1.y ∧ r.1.y < image.h - Int.tdiv r.1.size 2 := by
  obtain ⟨r, hr, ⟨f1, f2, f3, f4, f5, f6⟩, _⟩ := sampleValid_fresh s g sample image hdraw hframe
  have h0 : 0 ≤ r.1.size := le_trans hframe.1 f1
  have h2 := two_mul_tdiv_two_le r.1.size h0
  refine ⟨r, hr, f1, le_of_lt f2, f3, ?_, f5, ?_⟩ <;> omega

theorem sampleValid_position_bounds_witness :
    (DrawInRange demoSampler ∧ FrameAdmits demoSampler demoImage) ∧
    ∃ r, demoSampler.sampleValid 11 ⟨0, 0, 0, 0⟩ demoImage = some r ∧
      demoSampler.minSz demoImage ≤ r.1.size ∧ r.1.size ≤ demoSampler.maxSz demoImage ∧
      Int.tdiv r.1.size 2 ≤ r.1.x ∧ r.1.x < demoImage.w - Int.tdiv r.1.size 2 ∧
      Int.tdiv r.1.size 2 ≤ r.1.y ∧ r.1.y < demoImage.h - Int.tdiv r.1.size 2 :=
  ⟨⟨demoSampler_drawInRange, demoSampler_frameAdmits⟩,
    sampleValid_position_bounds demoSampler 11 ⟨0, 0, 0, 0⟩ demoImage demoSampler_drawInRange
      demoSampler_frameAdmits⟩

/-- The three ranges requested by `sampleValid` when it returns. -/
theorem sampleValidRanges_of_some (s : ResamplingSampler σ) (g : σ) (sample : Sample)
    (image : FdImage) (r : Sample × σ) (h : s.sampleValid g sample image = some r) :
    s.sampleValidRanges g image =
      [s.maxSz image - s.minSz image, image.w - r.1.size, image.h - r.1.size] ∧
    0 < s.maxSz image - s.minSz image ∧ 0 < image.w - r.1.size ∧ 0 < image.h - r.1.size := by
  obtain ⟨r1, r2, r3, g1, g2, g3, p1, d1, p2, d2, p3, d3, hr⟩ :=
    sampleValid_eq_some s g sample image r h
  rw [hr]
  refine ⟨?_, p1, p2, p3⟩
  have e1 : s.distribution g (s.maxSz image - s.minSz image) = some (r1, g1) := by
    rw [ResamplingSampler.distribution, if_pos p1, d1]
  have e2 : s.distribution g1 (image.w - (r1 + s.minSz image)) = some (r2, g2) := by
    rw [ResamplingSampler.distribution, if_pos p2, d2]
  unfold ResamplingSampler.sampleValidRanges
  dsimp only
  rw [e1]
  dsimp only
  rw [e2]

/-- With `maxSz <= minSz` the first draw is requested with a non-positive range. -/
theorem sampleValid_first_range (s : ResamplingSampler σ) (g : σ) (sample : Sample)
    (image : FdImage) (h : s.maxSz image ≤ s.minSz image) :
    s.sampleValidRanges g image = [s.maxSz image - s.minSz image] ∧
      s.sampleValid g sample image = none := by
  have hn : ¬ 0 < s.maxSz image - s.minSz image := by omega
  have e1 : s.distribution g (s.maxSz image - s.minSz image) = none := by
    rw [ResamplingSampler.distribution, if_neg hn]
  constructor
  · unfold ResamplingSampler.sampleValidRanges
    dsimp only
    rw [e1]
  · unfold ResamplingSampler.sampleValid
    dsimp only
    rw [e1]

/-- C19: under `0 <= minSz < maxSz <= min(w, h)` and draws in `[0, n)`, `sampleValid`
requests its three draws with the ranges `maxSz - minSz`, `w - size`, `h - size`, all of
them strictly positive, so that `sampleValid` and `sample` return; and when
`minSz >= maxSz` the first draw is requested with the non-positive range `maxSz - minSz`
and nothing is returned. -/
theorem sampleValid_ranges_positive (s : ResamplingSampler σ) (g : σ) (sample : Sample)
    (samples : List Sample) (offset : List ℚ) (image : FdImage) (newSamples : List Sample) :
    (DrawInRange s → FrameAdmits s image →
      (∃ r, s.sampleValid g sample image = some r ∧
        s.sampleValidRanges g image =
          [s.maxSz image - s.minSz image, image.w - r.1.size, image.h - r.1.size] ∧
        ∀ n ∈ s.sampleValidRanges g image, 0 < n) ∧
      ∃ out, s.sample g samples offset image newSamples = some out) ∧
    (s.maxSz image ≤ s.minSz image →
      s.sampleValidRanges g image = [s.maxSz image - s.minSz image] ∧
      s.maxSz image - s.minSz image ≤ 0 ∧ s.sampleValid g sample image = none) := by
  constructor
  · intro hdraw hframe
    constructor
    · obtain ⟨r, hr, _, _⟩ := sampleValid_fresh s g sample image hdraw hframe
      obtain ⟨hl, p1, p2, p3⟩ := sampleValidRanges_of_some s g sample image r hr
      refine ⟨r, hr, hl, ?_⟩
      intro n hn
      rw [hl] at hn
      simp only [List.mem_cons, List.mem_singleton, List.not_mem_nil, or_false] at hn
      rcases hn with h | h | h <;> rw [h] <;> assumption
    · obtain ⟨out, hout, _, _⟩ := sample_spec s g samples offset image newSamples hdraw hframe
      exact ⟨out, hout⟩
  · intro h
    obtain ⟨h1, h2⟩ := sampleValid_first_range s g sample image h
    exact ⟨h1, by omega, h2⟩

theorem sampleValid_ranges_positive_witness :
    (DrawInRange demoSampler ∧ FrameAdmits demoSampler demoImage ∧
      swappedSampler.maxSz demoImage ≤ swappedSampler.minSz demoImage) ∧
    ((∃ r, demoSampler.sampleValid 4 ⟨0, 0, 0, 0⟩ demoImage = some r ∧
        demoSampler.sampleValidRanges 4 demoImage =
          [demoSampler.maxSz demoImage - demoSampler.minSz demoImage,
            demoImage.w - r.1.size, demoImage.h - r.1.size] ∧
        ∀ n ∈ demoSampler.sampleValidRanges 4 demoImage, 0 < n) ∧
      ∃ out, demoSampler.sample 4 [] [0, 0] demoImage [] = some out) ∧
    (swappedSampler.sampleValidRanges 4 demoImage =
        [swappedSampler.maxSz demoImage - swappedSampler.minSz demoImage] ∧
      swappedSampler.maxSz demoImage - swappedSampler.minSz demoImage ≤ 0 ∧
      swappedSampler.sampleValid 4 ⟨0, 0, 0, 0⟩ demoImage = none) :=
  have hs : swappedSampler.maxSz demoImage ≤ swappedSampler.minSz demoImage := by
    rw [swappedSampler_minSz, swappedSampler_maxSz]
    decide
  ⟨⟨demoSampler_drawInRange, demoSampler_frameAdmits, hs⟩,
    (sampleValid_ranges_positive demoSampler 4 ⟨0, 0, 0, 0⟩ [] [0, 0] demoImage []).1
      demoSampler_drawInRange demoSampler_frameAdmits,
    (sampleValid_ranges_positive swappedSampler 4 ⟨0, 0, 0, 0⟩ [] [0, 0] demoImage []).2 hs⟩

/-- C15: `sample` keeps the two-phase structure position by position.  With
`r = resample(samples, keep)` (of length `keep`), the returned population has `count`
entries; for every position `i < keep` the entry is the prediction `p` of `r[i]` when
`isValid(p)` holds and otherwise `p` overwritten by `sampleValid`; every entry at a
position from `keep` on is produced by `sampleValid` on a default-constructed sample. -/
theorem sample_position_by_position (s : ResamplingSampler σ) (g : σ)
    (samples : List Sample) (offset : List ℚ) (image : FdImage) (newSamples : List Sample)
    (hrate0 : 0 ≤ s.randomRate) (hrate1 : s.randomRate ≤ 1)
    (hres : ResampleExact s) (hdraw : DrawInRange s) (hframe : FrameAdmits s image) :
    ∃ (out : List Sample) (g1 : σ),
      s.sample g samples offset image newSamples = some (out, g1) ∧
      out.length = s.count ∧
      (((s.resample g samples s.keep
          newSamples).1.length : Int) = s.keep) ∧
      (∀ (i : Nat) (res : Sample),
        (s.resample g samples s.keep
          newSamples).1[i]? = some res →
        ∃ o, out[i]? = some o ∧ ∃ (ga gb : σ) (p : Sample),
          s.predict ga res offset = (p, gb) ∧
          (s.isValid p image = true → o = p) ∧
          (s.isValid p image = false → ∃ gc, s.sampleValid gb p image = some (o, gc))) ∧
      (∀ (i : Nat) (q : Sample),
        s.keep ≤ (i : Int) → out[i]? = some q →
        ∃ ga gb : σ, s.sampleValid ga s.newSample image = some (q, gb)) := by
  obtain ⟨repaired, fresh, g1, hr, hrep, hlen1, hlen2, hall⟩ :=
    sample_positions s g samples offset image newSamples hrate0 hrate1 hres hdraw hframe
  obtain ⟨k0, _⟩ := keep_bounds s hrate0 hrate1
  refine ⟨repaired ++ fresh, g1, hr, ?_, hres g samples _ newSamples k0, ?_, ?_⟩
  · rw [List.length_append]
    omega
  · intro i res hi
    obtain ⟨o, ho, ga, gb, p, hp, hcase⟩ := forall₂_getElem? hrep i res hi
    have hlt : i < repaired.length := (List.getElem?_eq_some.mp ho).1
    refine ⟨o, ?_, ga, gb, p, hp, ?_, ?_⟩
    · rw [List.getElem?_append_left hlt]
      exact ho
    · intro hv
      rcases hcase with ⟨_, h⟩ | ⟨h, _⟩
      · exact h
      · rw [hv] at h
        exact absurd h (by decide)
    · intro hv
      rcases hcase with ⟨h, _⟩ | ⟨_, h⟩
      · rw [hv] at h
        exact absurd h (by decide)
      · exact h
  · intro i q hi hq
    have hge : repaired.length ≤ i := by omega
    rw [List.getElem?_append_right hge] at hq
    exact hall q (List.mem_iff_getElem?.mpr ⟨_, hq⟩)

theorem sample_position_by_position_witness :
    (0 ≤ demoSampler.randomRate ∧ demoSampler.randomRate ≤ 1 ∧ ResampleExact demoSampler ∧
      DrawInRange demoSampler ∧ FrameAdmits demoSampler demoImage) ∧
    ∃ (out : List Sample) (g1 : Nat),
      demoSampler.sample 0 [⟨50, 50, 20, 1⟩] [0, 0] demoImage [] = some (out, g1) ∧
      out.length = demoSampler.count ∧
      (((demoSampler.resample 0 [⟨50, 50, 20, 1⟩]
          demoSampler.keep
          []).1.length : Int) =
        demoSampler.keep) ∧
      (∀ (i : Nat) (res : Sample),
        (demoSampler.resample 0 [⟨50, 50, 20, 1⟩]
          demoSampler.keep
          []).1[i]? = some res →
        ∃ o, out[i]? = some o ∧ ∃ (ga gb : Nat) (p : Sample),
          demoSampler.predict ga res [0, 0] = (p, gb) ∧
          (demoSampler.isValid p demoImage = true → o = p) ∧
          (demoSampler.isValid p demoImage = false →
            ∃ gc, demoSampler.sampleValid gb p demoImage = some (o, gc))) ∧
      (∀ (i : Nat) (q : Sample),
        demoSampler.keep ≤ (i : Int) →
        out[i]? = some q →
        ∃ ga gb : Nat, demoSampler.sampleValid ga demoSampler.newSample demoImage = some (q, gb)) :=
  ⟨⟨by norm_num [demoSampler], by norm_num [demoSampler], demoSampler_resampleExact,
      demoSampler_drawInRange, demoSampler_frameAdmits⟩,
    sample_position_by_position demoSampler 0 [⟨50, 50, 20, 1⟩] [0, 0] demoImage []
      (by norm_num [demoSampler]) (by norm_num [demoSampler]) demoSampler_resampleExact
      demoSampler_drawInRange demoSampler_frameAdmits⟩

theorem repaired_weight (s : ResamplingSampler σ) (offset : List ℚ) (image : FdImage)
    (res out : Sample) (h : Repaired s offset image res out) :
    ∃ (ga gb : σ) (p : Sample), s.predict ga res offset = (p, gb) ∧ out.weight = p.weight := by
  obtain ⟨ga, gb, p, hp, hcase⟩ := h
  refine ⟨ga, gb, p, hp, ?_⟩
  rcases hcase with ⟨_, h⟩ | ⟨_, gc, h⟩
  · rw [h]
  · exact sampleValid_weight s gb p image _ h

/-- C20: `sampleValid` changes only the size, `x` and `y` of the sample it is given; the
weight is left unchanged.  So in the population returned by `sample` every entry of the
first phase carries the weight of the prediction it stands for, repaired or not, and
every padded entry carries the weight of a default-constructed sample. -/
theorem sampleValid_preserves_weight (s : ResamplingSampler σ) (g : σ) (sample : Sample)
    (samples : List Sample) (offset : List ℚ) (image : FdImage) (newSamples : List Sample) :
    (∀ r, s.sampleValid g sample image = some r →
      r.1 = { sample with size := r.1.size, x := r.1.x, y := r.1.y }) ∧
    (∀ out, s.sample g samples offset image newSamples = some out →
      ∃ repaired fresh, out.1 = repaired ++ fresh ∧
        List.Forall₂ (fun res o => ∃ (ga gb : σ) (p : Sample),
            s.predict ga res offset = (p, gb) ∧ o.weight = p.weight)
          (s.resample g samples s.keep
            newSamples).1 repaired ∧
        ∀ q ∈ fresh, q.weight = s.newSample.weight) := by
  constructor
  · intro r hr
    have hw := sampleValid_weight s g sample image r hr
    rw [← hw]
  · intro out hout
    obtain ⟨repaired, fresh, h1, h2, _, h4⟩ :=
      sample_structure s g samples offset image newSamples out hout
    refine ⟨repaired, fresh, h1, ?_, ?_⟩
    · exact List.Forall₂.imp (fun res o h => repaired_weight s offset image res o h) h2
    · intro q hq
      obtain ⟨ga, gb, h⟩ := h4 q hq
      exact sampleValid_weight s ga s.newSample image _ h

theorem sampleValid_preserves_weight_witness :
    (∃ r, demoSampler.sampleValid 0 ⟨3, 4, 5, 7⟩ demoImage = some r ∧ r.1.weight = 7) ∧
    (∃ out, demoSampler.sample 0 [⟨50, 50, 20, 1⟩] [0, 0] demoImage [] = some out ∧
      ∃ repaired fresh, out.1 = repaired ++ fresh ∧
        List.Forall₂ (fun res o => ∃ (ga gb : Nat) (p : Sample),
            demoSampler.predict ga res [0, 0] = (p, gb) ∧ o.weight = p.weight)
          (demoSampler.resample 0 [⟨50, 50, 20, 1⟩]
            demoSampler.keep []).1
          repaired ∧
        ∀ q ∈ fresh, q.weight = demoSampler.newSample.weight) := by
  obtain ⟨r, hr, _, _⟩ :=
    sampleValid_fresh demoSampler 0 ⟨3, 4, 5, 7⟩ demoImage demoSampler_drawInRange
      demoSampler_frameAdmits
  obtain ⟨out, hout, _, _⟩ :=
    sample_spec demoSampler 0 [⟨50, 50, 20, 1⟩] [0, 0] demoImage [] demoSampler_drawInRange
      demoSampler_frameAdmits
  have h := sampleValid_preserves_weight demoSampler 0 ⟨3, 4, 5, 7⟩ [⟨50, 50, 20, 1⟩] [0, 0]
    demoImage []
  exact ⟨⟨r, hr, by rw [h.1 r hr]⟩, ⟨out, hout, h.2 out hout⟩⟩

/-! ### Frames that admit no sample -/

/-- On a frame with `maxSz < minSz` or `min(w, h) < minSz` no sample is valid. -/
theorem isValid_false_of_degenerate (s : ResamplingSampler σ) (image : FdImage) (p : Sample)
    (hdeg : s.maxSz image < s.minSz image ∨ min image.w image.h < s.minSz image) :
    s.isValid p image = false := by
  rw [← Bool.not_eq_true, isValid_iff]
  rintro ⟨h1, h2, h3, h4, h5, h6⟩
  rcases hdeg with h | h
  · omega
  · rcases min_lt_iff.mp (lt_of_lt_of_le h h1) with hw | hh <;> omega

/-- On a frame with `maxSz <= minSz` or `min(w, h) <= minSz` one of the three draws of
`sampleValid` is requested with a non-positive range. -/
theorem sampleValid_none_of_degenerate (s : ResamplingSampler σ) (g : σ) (sample : Sample)
    (image : FdImage) (hdraw : DrawInRange s)
    (hdeg : s.maxSz image ≤ s.minSz image ∨ min image.w image.h ≤ s.minSz image) :
    s.sampleValid g sample image = none := by
  rcases hsv : s.sampleValid g sample image with _ | r
  · rfl
  · exfalso
    obtain ⟨r1, r2, r3, g1, g2, g3, p1, d1, p2, _, p3, _, _⟩ :=
      sampleValid_eq_some s g sample image r hsv
    have hd := (hdraw g _ p1).1
    rw [d1] at hd
    dsimp only at hd
    rcases hdeg with h | h
    · omega
    · rcases min_le_iff.mp h with hw | hh <;> omega

/-- On a frame that admits no sample, `sample` returns nothing as soon as it has a sample
to repair or to add. -/
theorem sample_none_of_degenerate (s : ResamplingSampler σ) (g : σ) (samples : List Sample)
    (offset : List ℚ) (image : FdImage) (newSamples : List Sample) (hdraw : DrawInRange s)
    (hdeg : s.maxSz image < s.minSz image ∨ min image.w image.h < s.minSz image)
    (hneed : 0 < s.count ∨ (s.resample g samples
      s.keep newSamples).1 ≠ []) :
    s.sample g samples offset image newSamples = none := by
  have hdeg1 : s.maxSz image ≤ s.minSz image ∨ min image.w image.h ≤ s.minSz image := by
    rcases hdeg with h | h
    · exact Or.inl (le_of_lt h)
    · exact Or.inr (le_of_lt h)
  rcases hres : s.resample g samples s.keep
    newSamples with ⟨newSamples1, g1⟩
  rw [hres] at hneed
  simp only [ResamplingSampler.sample, hres]
  cases newSamples1 with
  | nil =>
    have hc : 0 < s.count := by
      rcases hneed with h | h
      · exact h
      · exact absurd rfl h
    simp only [ResamplingSampler.predictSamples]
    rw [addRandomSamples_unfold, if_pos (by simpa using hc),
      sampleValid_none_of_degenerate s g1 s.newSample image hdraw hdeg1]
  | cons sample rest =>
    rcases hp : s.predict g1 sample offset with ⟨predicted, g2⟩
    have hv : ¬ s.isValid predicted image = true := by
      rw [isValid_false_of_degenerate s image predicted hdeg]
      decide
    simp only [ResamplingSampler.predictSamples, hp, if_neg hv,
      sampleValid_none_of_degenerate s g2 predicted image hdraw hdeg1]

/-- C14, as stated, fails: with `minSize = 0.5` and `maxSize = 0.1` on a frame of 100 by
100 pixels, `minSz = 50 > maxSz = 10`; `sample` reports nothing: it calls `sampleValid`,
which requests its first draw with the range -40, outside the contract of the random
distribution (the result `none` of the embedding). -/
theorem sample_degenerate_counterexample :
    swappedSampler.maxSz demoImage < swappedSampler.minSz demoImage ∧
    DrawInRange swappedSampler ∧
    swappedSampler.sampleValidRanges 0 demoImage = [-40] ∧
    swappedSampler.sample 0 [⟨50, 50, 20, 1⟩] [0, 0] demoImage [] = none := by
  have hlt : swappedSampler.maxSz demoImage < swappedSampler.minSz demoImage := by
    rw [swappedSampler_minSz, swappedSampler_maxSz]
    decide
  have hdraw : DrawInRange swappedSampler := fun g n hn => demoSampler_drawInRange g n hn
  refine ⟨hlt, hdraw, ?_, ?_⟩
  · rw [(sampleValid_first_range swappedSampler 0 ⟨0, 0, 0, 0⟩ demoImage (le_of_lt hlt)).1,
      swappedSampler_minSz, swappedSampler_maxSz]
    rfl
  · exact sample_none_of_degenerate swappedSampler 0 _ _ demoImage [] hdraw (Or.inl hlt)
      (Or.inl (by decide))

/-- On a frame with `maxSz <= minSz` or `min(w, h) <= minSz` every call of `sampleValid`
requests one of its draws with a range that is not positive. -/
theorem sampleValidRanges_exists_nonpos (s : ResamplingSampler σ) (g : σ) (image : FdImage)
    (hdraw : DrawInRange s)
    (hdeg : s.maxSz image ≤ s.minSz image ∨ min image.w image.h ≤ s.minSz image) :
    ∃ n ∈ s.sampleValidRanges g image, n ≤ 0 := by
  by_cases p1 : 0 < s.maxSz image - s.minSz image
  · have hd := (hdraw g _ p1).1
    rcases d1 : s.draw g (s.maxSz image - s.minSz image) with ⟨r1, g1⟩
    rw [d1] at hd
    dsimp only at hd
    have e1 : s.distribution g (s.maxSz image - s.minSz image) = some (r1, g1) := by
      rw [ResamplingSampler.distribution, if_pos p1, d1]
    by_cases p2 : 0 < image.w - (r1 + s.minSz image)
    · rcases d2 : s.draw g1 (image.w - (r1 + s.minSz image)) with ⟨r2, g2⟩
      have e2 : s.distribution g1 (image.w - (r1 + s.minSz image)) = some (r2, g2) := by
        rw [ResamplingSampler.distribution, if_pos p2, d2]
      have hl : s.sampleValidRanges g image = [s.maxSz image - s.minSz image,
          image.w - (r1 + s.minSz image), image.h - (r1 + s.minSz image)] := by
        unfold ResamplingSampler.sampleValidRanges
        dsimp only
        rw [e1]
        dsimp only
        rw [e2]
      refine ⟨image.h - (r1 + s.minSz image), by rw [hl]; simp, ?_⟩
      rcases hdeg with h | h
      · omega
      · rcases min_le_iff.mp h with hw | hh <;> omega
    · have e2 : s.distribution g1 (image.w - (r1 + s.minSz image)) = none := by
        rw [ResamplingSampler.distribution, if_neg p2]
      have hl : s.sampleValidRanges g image = [s.maxSz image - s.minSz image,
          image.w - (r1 + s.minSz image)] := by
        unfold ResamplingSampler.sampleValidRanges
        dsimp only
        rw [e1]
        dsimp only
        rw [e2]
      exact ⟨image.w - (r1 + s.minSz image), by rw [hl]; simp, by omega⟩
  · have e1 : s.distribution g (s.maxSz image - s.minSz image) = none := by
      rw [ResamplingSampler.distribution, if_neg p1]
    have hl : s.sampleValidRanges g image = [s.maxSz image - s.minSz image] := by
      unfold ResamplingSampler.sampleValidRanges
      dsimp only
      rw [e1]
    exact ⟨s.maxSz image - s.minSz image, by rw [hl]; simp, by omega⟩

/-- C14, amended: for a frame whose bounds make `minSz > maxSz` or leave no valid
placement (`minSz > min(w, h)`), no sample passes `isValid`, and (with draws in `[0, n)`)
every call of `sampleValid` on that frame requests one of its draws with a range that is
not positive, which the random distribution does not allow. -/
theorem sample_degenerate_frame (s : ResamplingSampler σ) (image : FdImage)
    (hdraw : DrawInRange s)
    (hdeg : s.maxSz image < s.minSz image ∨ min image.w image.h < s.minSz image) :
    (∀ p, s.isValid p image = false) ∧
    (∀ g0, ∃ n ∈ s.sampleValidRanges g0 image, n ≤ 0) := by
  have hdeg1 : s.maxSz image ≤ s.minSz image ∨ min image.w image.h ≤ s.minSz image := by
    rcases hdeg with h | h
    · exact Or.inl (le_of_lt h)
    · exact Or.inr (le_of_lt h)
  exact ⟨fun p => isValid_false_of_degenerate s image p hdeg,
    fun g0 => sampleValidRanges_exists_nonpos s g0 image hdraw hdeg1⟩

theorem sample_degenerate_frame_witness :
    (DrawInRange swappedSampler ∧
      (swappedSampler.maxSz demoImage < swappedSampler.minSz demoImage ∨
        min demoImage.w demoImage.h < swappedSampler.minSz demoImage)) ∧
    ((∀ p, swappedSampler.isValid p demoImage = false) ∧
      (∀ g0, ∃ n ∈ swappedSampler.sampleValidRanges g0 demoImage, n ≤ 0)) :=
  have hlt : swappedSampler.maxSz demoImage < swappedSampler.minSz demoImage := by
    rw [swappedSampler_minSz, swappedSampler_maxSz]
    decide
  ⟨⟨fun g n hn => demoSampler_drawInRange g n hn, Or.inl hlt⟩,
    sample_degenerate_frame swappedSampler demoImage
      (fun g n hn => demoSampler_drawInRange g n hn) (Or.inl hlt)⟩

end tracking

/-! ## The classifier -/

namespace classification

variable {α Mat : Type} [LinearOrderedField α]

/-- The loop entered at index `i` with accumulator `distance` adds the remaining terms,
provided the coefficients reach as far as the support vectors. -/
theorem distanceLoop_eq (c : RvmClassifier α Mat) (featureVector : Mat) (rest : List Mat) :
    ∀ (i : Nat) (distance : α) (h : i + rest.length ≤ c.coefficients.length),
      c.distanceLoop featureVector rest i distance =
        some (distance + ∑ j : Fin rest.length,
          c.coefficients.get ⟨i + j.1, by have := j.2; omega⟩ *
            c.kernel featureVector (rest.get j)) := by
  induction rest with
  | nil =>
    intro i distance _
    simp [RvmClassifier.distanceLoop]
  | cons supportVector rest ih =>
    intro i distance h
    have hi : i < c.coefficients.length := by
      simp only [List.length_cons] at h
      omega
    have h1 : i + 1 + rest.length ≤ c.coefficients.length := by
      simp only [List.length_cons] at h
      omega
    rw [RvmClassifier.distanceLoop, List.getElem?_eq_getElem hi]
    simp only
    rw [ih (i + 1) _ h1]
    refine congrArg some ?_
    rw [add_assoc]
    congr 1
    refine Eq.trans ?_ (Fin.sum_univ_succ _).symm
    congr 1
    apply Finset.sum_congr rfl
    intro j _
    simp only [List.get_eq_getElem, Fin.val_succ, List.getElem_cons_succ]
    congr 2
    omega

/-- C5: for a classifier whose support-vector and coefficient lists have the same length
`n`, `computeHyperplaneDistance(f)` returns (no coefficient is read out of range) the value
`-bias + Σ i < n, coefficients[i] * kernel.compute(f, supportVectors[i])`, for every
feature vector and every kernel. -/
theorem computeHyperplaneDistance_eq_sum (c : RvmClassifier α Mat) (featureVector : Mat)
    (h : c.supportVectors.length = c.coefficients.length) :
    c.computeHyperplaneDistance featureVector =
      some (-c.bias + ∑ i : Fin c.supportVectors.length,
        c.coefficients.get (Fin.cast h i) *
          c.kernel featureVector (c.supportVectors.get i)) := by
  rw [RvmClassifier.computeHyperplaneDistance,
    distanceLoop_eq c featureVector c.supportVectors 0 (-c.bias) (by omega)]
  refine congrArg some ?_
  congr 1
  apply Finset.sum_congr rfl
  intro j _
  simp only [List.get_eq_getElem, Fin.coe_cast]
  congr 2
  omega

theorem computeHyperplaneDistance_eq_sum_witness :
    demoClassifier.supportVectors.length = demoClassifier.coefficients.length ∧
    demoClassifier.computeHyperplaneDistance [3, 4] =
      some (-demoClassifier.bias + ∑ i : Fin demoClassifier.supportVectors.length,
        demoClassifier.coefficients.get (Fin.cast rfl i) *
          demoClassifier.kernel [3, 4] (demoClassifier.supportVectors.get i)) :=
  ⟨rfl, computeHyperplaneDistance_eq_sum demoClassifier [3, 4] rfl⟩

/-- C6: for every classifier and every feature vector `f`, `classify(f)` returns what
`classify(computeHyperplaneDistance(f))` returns. -/
theorem classify_eq_classify_distance (c : RvmClassifier α Mat) (featureVector : Mat) :
    c.classify featureVector =
      (c.computeHyperplaneDistance featureVector).map c.classifyDistance := by
  unfold RvmClassifier.classify
  cases c.computeHyperplaneDistance featureVector <;> rfl

/-- C7: for every classifier, `classify(d)` is true if and only if `d >= threshold`, and
`classify(f)` is true if and only if `computeHyperplaneDistance(f)` is a distance
`d >= threshold`. -/
theorem classify_iff_ge_threshold (c : RvmClassifier α Mat) :
    (∀ d : α, c.classifyDistance d = true ↔ d ≥ c.threshold) ∧
    (∀ featureVector : Mat, c.classify featureVector = some true ↔
      ∃ d, c.computeHyperplaneDistance featureVector = some d ∧ d ≥ c.threshold) := by
  constructor
  · intro d
    simp only [RvmClassifier.classifyDistance, decide_eq_true_eq]
  · intro featureVector
    unfold RvmClassifier.classify
    cases c.computeHyperplaneDistance featureVector with
    | none => simp
    | some d => simp [RvmClassifier.classifyDistance]

/-- C8: for a classifier with zero support vectors, `computeHyperplaneDistance(f)` returns
exactly `-bias`, for every feature vector, every kernel and every coefficient list. -/
theorem computeHyperplaneDistance_zero_supportVectors (c : RvmClassifier α Mat)
    (featureVector : Mat) (h : c.supportVectors.length = 0) :
    c.computeHyperplaneDistance featureVector = some (-c.bias) := by
  rw [RvmClassifier.computeHyperplaneDistance, List.length_eq_zero.mp h]
  rfl

theorem computeHyperplaneDistance_zero_supportVectors_witness :
    (demoClassifier.setSvmParameters [] [] (3 / 4)).supportVectors.length = 0 ∧
    (demoClassifier.setSvmParameters [] [] (3 / 4)).computeHyperplaneDistance [3, 4] =
      some (-(demoClassifier.setSvmParameters [] [] (3 / 4)).bias) :=
  ⟨rfl, computeHyperplaneDistance_zero_supportVectors
    (demoClassifier.setSvmParameters [] [] (3 / 4)) [3, 4] rfl⟩

/-- C9: the concrete scenario.  With the single support vector `[1, 0]`, coefficient 2,
bias 0.5, threshold 0 and any kernel whose value at `([1, 0], [1, 0])` is 1,
`computeHyperplaneDistance([1, 0])` is 1.5 and `classify([1, 0])` is true. -/
theorem scenario_classifier (kernel : List α → List α → α)
    (hk : kernel [1, 0] [1, 0] = 1) :
    (scenarioClassifier kernel).computeHyperplaneDistance [1, 0] = some (3 / 2) ∧
      (scenarioClassifier kernel).classify [1, 0] = some true := by
  have hd : (scenarioClassifier kernel).computeHyperplaneDistance [1, 0] = some (3 / 2) := by
    simp only [RvmClassifier.computeHyperplaneDistance, scenarioClassifier,
      RvmClassifier.distanceLoop, List.getElem?_cons_zero, hk]
    norm_num
  refine ⟨hd, ?_⟩
  simp only [RvmClassifier.classify, hd, RvmClassifier.classifyDistance]
  norm_num [scenarioClassifier]

/-- The scenario with the RBF kernel `exp(-gamma * |a - b|^2)`, `gamma = 1`, over the real
numbers. -/
theorem scenario_classifier_witness :
    (fun a b : List ℝ =>
        Real.exp (-(1 : ℝ) * (List.zipWith (fun x y => (x - y) ^ 2) a b).sum)) [1, 0] [1, 0] = 1 ∧
    ((scenarioClassifier (fun a b : List ℝ =>
        Real.exp (-(1 : ℝ) * (List.zipWith (fun x y => (x - y) ^ 2) a b).sum))).computeHyperplaneDistance
          [1, 0] = some (3 / 2) ∧
      (scenarioClassifier (fun a b : List ℝ =>
        Real.exp (-(1 : ℝ) * (List.zipWith (fun x y => (x - y) ^ 2) a b).sum))).classify
          [1, 0] = some true) :=
  ⟨by simp, scenario_classifier _ (by simp)⟩

/-! ### Mutation and loading -/

/-- C13, as stated, fails: `setSvmParameters` called with one support vector and no
coefficient stores both lists; the classifier then has lists of different lengths, and
`computeHyperplaneDistance` reads `coefficients[0]` out of range. -/
theorem setSvmParameters_mismatch_counterexample :
    (demoClassifier.setSvmParameters [[1, 0]] [] 0).supportVectors = [[1, 0]] ∧
    (demoClassifier.setSvmParameters [[1, 0]] [] 0).coefficients = [] ∧
    (demoClassifier.setSvmParameters [[1, 0]] [] 0).supportVectors.length ≠
      (demoClassifier.setSvmParameters [[1, 0]] [] 0).coefficients.length ∧
    (demoClassifier.setSvmParameters [[1, 0]] [] 0).computeHyperplaneDistance [1, 0] = none := by
  refine ⟨rfl, rfl, ?_, rfl⟩
  simp [RvmClassifier.setSvmParameters]

/-- C13, amended: the constructor establishes `supportVectors.size() == coefficients.size()`
(both lists empty); `setSvmParameters` stores the support vectors, the coefficients and
the bias it is given without a check, so after it the invariant holds if and only if the
two lists it was given have the same length. -/
theorem setSvmParameters_stores {β : Type} (c : RvmClassifier β Mat)
    (supportVectors : List Mat) (coefficients : List β) (bias : β) (kernel : Mat → Mat → β)
    (bias0 threshold0 : β) :
    (RvmClassifier.init kernel bias0 threshold0).supportVectors.length =
      (RvmClassifier.init kernel bias0 threshold0).coefficients.length ∧
    (c.setSvmParameters supportVectors coefficients bias).supportVectors = supportVectors ∧
    (c.setSvmParameters supportVectors coefficients bias).coefficients = coefficients ∧
    (c.setSvmParameters supportVectors coefficients bias).bias = bias ∧
    ((c.setSvmParameters supportVectors coefficients bias).supportVectors.length =
        (c.setSvmParameters supportVectors coefficients bias).coefficients.length ↔
      supportVectors.length = coefficients.length) :=
  ⟨rfl, rfl, rfl, rfl, Iff.rfl⟩

end classification
